import Mathlib

/-!
The request transformation and forwarding pipeline of override-gui

A shallow embedding of `backend/service.go`.

Conventions of the embedding.

* Text (Go `string` / `[]byte`) is a list of Unicode code points.
* A JSON document is a tree (`JSON`).  String tokens, object keys included,
  keep their *raw* text, the characters between the two quotes exactly as
  they stand on the wire, because `constructWithChatModel` edits the
  serialized text.  Whitespace between tokens is not represented, and
  numbers are integer literals.
* `gjson` and `sjson` are third-party libraries; they are modelled on trees
  by the behaviour of the calls the service makes (first matching key wins,
  a missing key is appended at the end of the object, a failed edit leaves
  the document as it was).
* A request body is a JSON object, given by its member list (`Body`).
* A Go runtime panic (index out of range) is the result `none`.
-/

namespace Override

/-- Text: a Go string seen as its list of code points. -/
abbrev Text := List Char

/-! ## Go `strings` -/

/-- Go `strings.HasPrefix s pre`. -/
def HasPrefix : Text → Text → Bool
  | _, [] => true
  | [], _ :: _ => false
  | c :: s, p :: ps => c == p && HasPrefix s ps

/-- Go `strings.Contains s sub`. -/
def Contains : Text → Text → Bool
  | [], sub => HasPrefix [] sub
  | c :: s, sub => HasPrefix (c :: s) sub || Contains s sub

/-- Left-to-right scan of `strings.ReplaceAll` for a non-empty `old`: the
first argument counts the characters of a match still to be skipped. -/
def replaceFrom (old new : Text) : Nat → Text → Text
  | _, [] => []
  | skip + 1, _ :: s => replaceFrom old new skip s
  | 0, c :: s =>
    if HasPrefix (c :: s) old then new ++ replaceFrom old new (old.length - 1) s
    else c :: replaceFrom old new 0 s

/-- Go `strings.ReplaceAll s old new` (non-overlapping matches, leftmost
first), for a non-empty `old`. -/
def ReplaceAll (s old new : Text) : Text := replaceFrom old new 0 s

/-! ## JSON documents -/

/-- A JSON value.  `str raw` and the keys of `obj` hold raw (still escaped)
text. -/
inductive JSON where
  | null : JSON
  | bool (b : Bool) : JSON
  | num (n : Int) : JSON
  | str (raw : Text) : JSON
  | arr (xs : List JSON) : JSON
  | obj (ms : List (Text × JSON)) : JSON

/-- A request body: the members of a JSON object, in document order. -/
abbrev Body := List (Text × JSON)

mutual
/-- Compact serialization of a value. -/
def render : JSON → Text
  | .null => "null".toList
  | .bool true => "true".toList
  | .bool false => "false".toList
  | .num n => (toString n).toList
  | .str raw => '"' :: raw ++ ['"']
  | .arr xs => '[' :: renderElems xs ++ [']']
  | .obj ms => '{' :: renderMembers ms ++ ['}']
/-- Array elements separated by commas. -/
def renderElems : List JSON → Text
  | [] => []
  | [x] => render x
  | x :: y :: xs => render x ++ ',' :: renderElems (y :: xs)
/-- Object members separated by commas. -/
def renderMembers : List (Text × JSON) → Text
  | [] => []
  | [(k, v)] => '"' :: k ++ '"' :: ':' :: render v
  | (k, v) :: m :: ms => '"' :: k ++ '"' :: ':' :: render v ++ ',' :: renderMembers (m :: ms)
end

/-- The bytes of a request body. -/
def renderBody (body : Body) : Text := render (.obj body)

/-! ## String escaping -/

/-- Value of a hexadecimal digit. -/
def hexVal (c : Char) : Option Nat :=
  if 48 ≤ c.toNat ∧ c.toNat ≤ 57 then some (c.toNat - 48)
  else if 97 ≤ c.toNat ∧ c.toNat ≤ 102 then some (c.toNat - 87)
  else if 65 ≤ c.toNat ∧ c.toNat ≤ 70 then some (c.toNat - 55)
  else none

/-- gjson `runeit`: the four characters after `\u` read as a hexadecimal
number, 0 when they are not four hexadecimal digits. -/
def runeit (a b c d : Char) : Nat :=
  match hexVal a, hexVal b, hexVal c, hexVal d with
  | some w, some x, some y, some z => ((w * 16 + x) * 16 + y) * 16 + z
  | _, _, _, _ => 0

/-- Go `utf16.IsSurrogate`. -/
def isSurrogate (r : Nat) : Bool := 0xD800 ≤ r && r < 0xE000

/-- Go `utf16.DecodeRune`: the code point of a surrogate pair, U+FFFD when
the two halves do not form a pair. -/
def decodeRune (r1 r2 : Nat) : Char :=
  if 0xD800 ≤ r1 ∧ r1 < 0xDC00 ∧ 0xDC00 ≤ r2 ∧ r2 < 0xE000 then
    Char.ofNat ((r1 - 0xD800) * 0x400 + (r2 - 0xDC00) + 0x10000)
  else Char.ofNat 0xFFFD

/-- The character written by `utf8.EncodeRune` for a rune below 0x10000. -/
def encodeRune (r : Nat) : Char :=
  if isSurrogate r then Char.ofNat 0xFFFD else Char.ofNat r

/-- Second half of a surrogate pair: the rune of a `\uXXXX` escape at the
head of the text, if the text is at least six characters long and starts
with `\u`. -/
def peekEscape : Text → Option Nat
  | b2 :: u2 :: g1 :: g2 :: g3 :: g4 :: _ =>
    if b2 = '\\' ∧ u2 = 'u' then some (runeit g1 g2 g3 g4) else none
  | _ => none

/-- The loop of gjson `unescape`; the first argument counts the characters of
an escape already consumed that are still to be skipped. -/
def unescapeFrom : Nat → Text → Text
  | _, [] => []
  | skip + 1, _ :: s => unescapeFrom skip s
  | 0, c :: s =>
    if c.toNat < 32 then []
    else if c = '\\' then
      match s with
      | [] => []
      | e :: s1 =>
        if e = '\\' then '\\' :: unescapeFrom 0 s1
        else if e = '/' then '/' :: unescapeFrom 0 s1
        else if e = 'b' then Char.ofNat 8 :: unescapeFrom 0 s1
        else if e = 'f' then Char.ofNat 12 :: unescapeFrom 0 s1
        else if e = 'n' then '\n' :: unescapeFrom 0 s1
        else if e = 'r' then '\r' :: unescapeFrom 0 s1
        else if e = 't' then '\t' :: unescapeFrom 0 s1
        else if e = '"' then '"' :: unescapeFrom 0 s1
        else if e = 'u' then
          match s1 with
          | h1 :: h2 :: h3 :: h4 :: s2 =>
            if isSurrogate (runeit h1 h2 h3 h4) then
              match peekEscape s2 with
              | some r2 => decodeRune (runeit h1 h2 h3 h4) r2 :: unescapeFrom 6 s2
              | none => encodeRune (runeit h1 h2 h3 h4) :: unescapeFrom 0 s2
            else encodeRune (runeit h1 h2 h3 h4) :: unescapeFrom 0 s2
          | _ => []
        else []
    else c :: unescapeFrom 0 s

/-- gjson `unescape`: decodes the raw text of a string token.  Decoding
stops, keeping what was decoded so far, at a control character, at an
unknown escape or at a truncated one. -/
def unescape (raw : Text) : Text := unescapeFrom 0 raw

/-- Lower-case hexadecimal digit of a value below 16. -/
def hexDigit (n : Nat) : Char :=
  if n < 10 then Char.ofNat (48 + n) else Char.ofNat (87 + n)

/-- Go `encoding/json` string encoding of one character, HTML escaping on
(the default of `json.Marshal`). -/
def escapeChar (c : Char) : Text :=
  if c = '"' then ['\\', '"']
  else if c = '\\' then ['\\', '\\']
  else if c = '\n' then ['\\', 'n']
  else if c = '\r' then ['\\', 'r']
  else if c = '\t' then ['\\', 't']
  else if c.toNat < 32 ∨ c = '<' ∨ c = '>' ∨ c = '&' then
    ['\\', 'u', '0', '0', hexDigit (c.toNat / 16), hexDigit (c.toNat % 16)]
  else if c.toNat = 0x2028 then ['\\', 'u', '2', '0', '2', '8']
  else if c.toNat = 0x2029 then ['\\', 'u', '2', '0', '2', '9']
  else [c]

/-- Raw text of `json.Marshal(s)` for a Go string, without the quotes. -/
def marshalString : Text → Text
  | [] => []
  | c :: s => escapeChar c ++ marshalString s

/-- sjson `mustMarshalString`. -/
def mustMarshalString (s : Text) : Bool :=
  s.any fun c => decide (c.toNat < 32) || decide (c.toNat > 0x7f) || c == '"' || c == '\\'

/-- sjson `appendStringify`: raw text of the string token written for a Go
string, copied as it is unless it needs escaping. -/
def appendStringify (s : Text) : Text :=
  if mustMarshalString s then marshalString s else s

/-! ## gjson -/

/-- First member of an object whose decoded key is `key`. -/
def objGet : List (Text × JSON) → Text → Option JSON
  | [], _ => none
  | (k, v) :: ms, key => if unescape k = key then some v else objGet ms key

/-- A gjson `Result`: the value found, `none` when the path matched
nothing. -/
abbrev Result := Option JSON

/-- `gjson.GetBytes body key` for a plain key. -/
def GetBytes (body : Body) (key : Text) : Result := objGet body key

/-- `Result.Get key` for a plain key: a member of an object, nothing in any
other value. -/
def Result.Get : JSON → Text → Result
  | .obj ms, key => objGet ms key
  | _, _ => none

/-- `Result.Exists`. -/
def Result.Exists : Result → Bool
  | some _ => true
  | none => false

/-- `Result.String`: the decoded text of a string, the literal of a number
or boolean, the raw JSON of an array or object, empty for null or a missing
value. -/
def Result.String : Result → Text
  | none => []
  | some .null => []
  | some (.bool true) => "true".toList
  | some (.bool false) => "false".toList
  | some (.num n) => (toString n).toList
  | some (.str raw) => unescape raw
  | some (.arr xs) => render (.arr xs)
  | some (.obj ms) => render (.obj ms)

/-- Two's complement wrap of an integer into the int64 range. -/
def wrapInt64 (n : ℤ) : ℤ := (n + 2 ^ 63) % 2 ^ 64 - 2 ^ 63

/-- Value of a run of decimal digits, `none` if another character occurs. -/
def parseDigits : Text → ℕ → Option ℕ
  | [], acc => some acc
  | c :: s, acc =>
    if 48 ≤ c.toNat ∧ c.toNat ≤ 57 then parseDigits s (acc * 10 + (c.toNat - 48)) else none

/-- gjson `parseInt`: an optional minus sign and decimal digits, with int64
wrap-around; 0 when the text is not of that form. -/
def parseInt (s : Text) : ℤ :=
  match s with
  | [] => 0
  | c :: r =>
    if c = '-' then
      match r with
      | [] => 0
      | _ :: _ => match parseDigits r 0 with
        | some n => wrapInt64 (-(n : ℤ))
        | none => 0
    else match parseDigits (c :: r) 0 with
      | some n => wrapInt64 (n : ℤ)
      | none => 0

/-- `Result.Int`: the int64 value of an integer literal, 1 for true, the
parsed text of a string, 0 otherwise (missing value included). -/
def Result.Int : Result → ℤ
  | some (.bool true) => 1
  | some (.num n) => wrapInt64 n
  | some (.str raw) => parseInt (unescape raw)
  | _ => 0

/-- `Result.Array`: the elements of an array, nothing for null or a missing
value, and the value itself as single element otherwise. -/
def Result.Array : Result → List JSON
  | none => []
  | some .null => []
  | some (.arr xs) => xs
  | some j => [j]

/-! ## sjson -/

/-- Replace the value of the first member whose decoded key is `key`, or
append a new member at the end. -/
def setMember : List (Text × JSON) → Text → JSON → List (Text × JSON)
  | [], key, v => [(appendStringify key, v)]
  | (k, x) :: ms, key, v =>
    if unescape k = key then (k, v) :: ms else (k, x) :: setMember ms key v

/-- Remove the first member whose decoded key is `key`, if there is one. -/
def deleteMember : List (Text × JSON) → Text → List (Text × JSON)
  | [], _ => []
  | (k, x) :: ms, key => if unescape k = key then ms else (k, x) :: deleteMember ms key

/-- `sjson.SetBytes body key v` for a plain key. -/
def SetBytes (body : Body) (key : Text) (v : JSON) : Body := setMember body key v

/-- `sjson.DeleteBytes body key` for a plain key. -/
def DeleteBytes (body : Body) (key : Text) : Body := deleteMember body key

/-- The string token sjson writes for a Go string value. -/
def stringValue (s : Text) : JSON := .str (appendStringify s)

/-- Path `content` inside one element: a member of an object is set, any
scalar is replaced by a fresh object, and an array is an error (`none`). -/
def setContent (elem : JSON) (v : JSON) : Option JSON :=
  match elem with
  | .obj ms => some (.obj (setMember ms "content".toList v))
  | .arr _ => none
  | _ => some (.obj [("content".toList, v)])

/-- Path `N.content` inside the value of `messages`. -/
def setIndexContent (msgs : JSON) (n : ℕ) (v : JSON) : Option JSON :=
  match msgs with
  | .arr xs =>
    match xs.get? n with
    | some e => (setContent e v).map fun e2 => .arr (xs.set n e2)
    | none => some (.arr (xs ++ List.replicate (n - xs.length) .null ++ [.obj [("content".toList, v)]]))
  | .obj ms =>
    match objGet ms (toString n).toList with
    | some e => (setContent e v).map fun e2 => .obj (setMember ms (toString n).toList e2)
    | none => some (.obj (ms ++ [((toString n).toList, .obj [("content".toList, v)])]))
  | _ => some (.arr (List.replicate n .null ++ [.obj [("content".toList, v)]]))

/-- `sjson.SetBytes body "messages.N.content" v`; on an error the body is
returned as it was. -/
def SetMessageContent (body : Body) (n : ℕ) (v : JSON) : Body :=
  match objGet body "messages".toList with
  | some m =>
    match setIndexContent m n v with
    | some m2 => setMember body "messages".toList m2
    | none => body
  | none =>
    body ++ [("messages".toList, .arr (List.replicate n .null ++ [.obj [("content".toList, v)]]))]

/-! ## Configuration -/

/-- The configuration value (`config` in `service.go`). -/
structure config where
  Bind : Text
  ProxyUrl : Text
  Timeout : ℤ
  CodexApiBase : Text
  CodexApiKey : Text
  CodexApiOrganization : Text
  CodexApiProject : Text
  CodexMaxTokens : ℤ
  CodeInstructModel : Text
  ChatApiBase : Text
  ChatApiKey : Text
  ChatApiOrganization : Text
  ChatApiProject : Text
  ChatMaxTokens : ℤ
  ChatModelDefault : Text
  ChatModelMap : List (Text × Text)
  ChatLocale : Text
  AuthToken : Text

/-- Constant `StableCodeModelPrefix`. -/
def StableCodeModelPrefix : Text := "stable-code".toList

/-- Constant `DeepSeekCoderModel`. -/
def DeepSeekCoderModel : Text := "deepseek-coder".toList

/-- The marker looked for in the last message. -/
def localeMarker : Text := "Respond in the following locale".toList

/-! ## The chat rewrite of `completions` -/

/-- Go slice indexing `xs[i]`: a negative or too large index panics. -/
def index (xs : List JSON) (i : ℤ) : Option JSON :=
  if i < 0 then none else xs.get? i.toNat

/-- Lines 367-373 of `completions`: the model is mapped or defaulted. -/
def mapModel (cfg : config) (body : Body) : Body :=
  let model := Result.String (GetBytes body "model".toList)
  let model := match cfg.ChatModelMap.lookup model with
    | some mapped => mapped
    | none => cfg.ChatModelDefault
  SetBytes body "model".toList (stringValue model)

/-- Lines 375-385 of `completions`: the locale instruction is appended to
the last message.  `none` is the index-out-of-range panic. -/
def appendLocale (cfg : config) (body : Body) : Option Body :=
  if !Result.Exists (GetBytes body "function_call".toList) then
    let messages := Result.Array (GetBytes body "messages".toList)
    let lastIndex : ℤ := (messages.length : ℤ) - 1
    match index messages lastIndex with
    | none => none
    | some last =>
      let content := Result.String (Result.Get last "content".toList)
      if !Contains content localeMarker then
        let locale := if cfg.ChatLocale = [] then "zh_CN".toList else cfg.ChatLocale
        some (SetMessageContent body lastIndex.toNat
          (stringValue (content ++ "Respond in the following locale: ".toList ++ locale ++ ".".toList)))
      else some body
  else some body

/-- Lines 387-393 of `completions`: the intent fields are deleted and
`max_tokens` is capped. -/
def capChat (cfg : config) (body : Body) : Body :=
  let body := DeleteBytes body "intent".toList
  let body := DeleteBytes body "intent_threshold".toList
  let body := DeleteBytes body "intent_content".toList
  if Result.Int (GetBytes body "max_tokens".toList) > cfg.ChatMaxTokens then
    SetBytes body "max_tokens".toList (.num cfg.ChatMaxTokens)
  else body

/-- The request body `completions` sends upstream (lines 367-393), `none`
when the handler panics. -/
def completionsBody (cfg : config) (body : Body) : Option Body :=
  (appendLocale cfg (mapModel cfg body)).map (capChat cfg)

/-! ## The code rewrite: `ConstructRequestBody` -/

/-- The value `json.Marshal` writes for the `[]map[string]string` holding
one message: keys in sorted order, strings HTML-escaped. -/
def marshalMessages (role content : Text) : JSON :=
  .arr [.obj [("content".toList, .str (marshalString content)),
              ("role".toList, .str (marshalString role))]]

/-- Function `constructWithChatModel`, the messages already marshalled: the
messages are set, then both escapes are replaced in the serialized text. -/
def constructWithChatModel (body : Body) (messages : JSON) : Text :=
  let body := SetBytes body "messages".toList messages
  let jsonStr := renderBody body
  let jsonStr := ReplaceAll jsonStr "\\u003c".toList "<".toList
  let jsonStr := ReplaceAll jsonStr "\\u003e".toList ">".toList
  jsonStr

/-- The fill-in-the-middle prompt built by `fmt.Sprintf`. -/
def fimContent (prompt suffix : Text) : Text :=
  "<fim_prefix>".toList ++ prompt ++ "<fim_suffix>".toList ++ suffix ++ "<fim_middle>".toList

/-- Function `constructWithStableCodeModel`. -/
def constructWithStableCodeModel (body : Body) : Text :=
  let suffix := GetBytes body "suffix".toList
  let prompt := GetBytes body "prompt".toList
  let content := fimContent (Result.String prompt) (Result.String suffix)
  let messages := marshalMessages "user".toList content
  constructWithChatModel body messages

/-- Function `ConstructRequestBody`, returning the bytes sent upstream. -/
def ConstructRequestBody (body : Body) (cfg : config) : Text :=
  let body := DeleteBytes body "extra".toList
  let body := DeleteBytes body "nwo".toList
  let body := SetBytes body "model".toList (stringValue cfg.CodeInstructModel)
  let body :=
    if Result.Int (GetBytes body "max_tokens".toList) > cfg.CodexMaxTokens then
      SetBytes body "max_tokens".toList (.num cfg.CodexMaxTokens)
    else body
  if Contains cfg.CodeInstructModel StableCodeModelPrefix then
    constructWithStableCodeModel body
  else
    let body :=
      if HasPrefix cfg.CodeInstructModel DeepSeekCoderModel then
        if Result.Int (GetBytes body "n".toList) > 1 then SetBytes body "n".toList (.num 1)
        else body
      else body
    renderBody body

/-! ## Handlers -/

/-- Why `client.Do` failed.  `errors.Is(err, context.Canceled)` holds for
`canceled` only. -/
inductive TransportError where
  | canceled
  | deadlineExceeded
  | other
  deriving DecidableEq

/-- `errors.Is(err, context.Canceled)`. -/
def TransportError.isCanceled : TransportError → Bool
  | .canceled => true
  | _ => false

/-- What the handler reads of an upstream response. -/
structure UpstreamResponse where
  StatusCode : ℕ
  ContentType : Text
  Body : Text
  deriving DecidableEq

/-- Result of `client.Do`. -/
inductive DoResult where
  | error (e : TransportError)
  | response (r : UpstreamResponse)
  deriving DecidableEq

/-- The upstream side as the handlers see it. -/
structure Upstream where
  /-- Whether `http.NewRequestWithContext` accepts the URL. -/
  newRequest : Text → Bool
  /-- Outcome of `client.Do` for a URL and a request body. -/
  Do : Text → Text → DoResult

/-- What a handler answers through gin: the status, the `Content-Type`
header it set, and the body text gin writes. -/
structure Response where
  status : ℕ
  contentType : Option Text
  body : Text
  deriving DecidableEq

/-- Gin `bodyAllowedForStatus`: no body goes with a status 1xx, 204 or
304. -/
def bodyAllowedForStatus (status : ℕ) : Bool :=
  !(decide (100 ≤ status ∧ status ≤ 199) || status == 204 || status == 304)

/-- Function `abortCodex`: the synthetic abort response.  Gin `c.String`
sets the status, keeps the `Content-Type` already set, and writes the text
only when the status allows a body. -/
def abortCodex (status : ℕ) : Response :=
  { status := status, contentType := some "text/event-stream".toList,
    body := if bodyAllowedForStatus status then "data: [DONE]\n".toList else [] }

/-- Gin `c.AbortWithStatus`: a status and nothing else. -/
def AbortWithStatus (status : ℕ) : Response :=
  { status := status, contentType := none, body := [] }

/-- The relay at the end of both handlers: the upstream status, its
Content-Type when non-empty, and its body. -/
def relay (resp : UpstreamResponse) : Response :=
  { status := resp.StatusCode,
    contentType := if resp.ContentType ≠ [] then some resp.ContentType else none,
    body := resp.Body }

/-- Handler `completions`.  The request body is `none` when reading it
failed; the result is `none` when the handler panics. -/
def completions (cfg : config) (up : Upstream) (reqBody : Option Body) : Option Response :=
  match reqBody with
  | none => some (AbortWithStatus 400)
  | some body =>
    match completionsBody cfg body with
    | none => none
    | some body =>
      let proxyUrl := cfg.ChatApiBase ++ "/chat/completions".toList
      if !up.newRequest proxyUrl then some (AbortWithStatus 500)
      else
        match up.Do proxyUrl (renderBody body) with
        | .error e =>
          if e.isCanceled then some (AbortWithStatus 408)
          else some (AbortWithStatus 500)
        | .response resp => some (relay resp)

/-- Handler `codeCompletions`.  `ctxErr` says whether the request context is
already done after the initial sleep. -/
def codeCompletions (cfg : config) (up : Upstream) (ctxErr : Bool) (reqBody : Option Body) :
    Response :=
  if ctxErr then abortCodex 408
  else
    match reqBody with
    | none => abortCodex 400
    | some body =>
      let body := ConstructRequestBody body cfg
      let proxyUrl := cfg.CodexApiBase ++ "/completions".toList
      if !up.newRequest proxyUrl then abortCodex 500
      else
        match up.Do proxyUrl body with
        | .error e =>
          if e.isCanceled then abortCodex 408
          else abortCodex 500
        | .response resp =>
          if resp.StatusCode ≠ 200 then abortCodex resp.StatusCode
          else relay resp

/-! ## Routes and the auth gate -/

/-- The handlers of the service. -/
inductive Handler where
  | pong
  | models
  | completions
  | codeCompletions
  deriving DecidableEq

/-- A segment of a route pattern: literal text or a named parameter. -/
inductive Seg where
  | lit (s : Text)
  | param (name : Text)
  deriving DecidableEq

/-- A registered route; `auth` is the token of the `AuthMiddleware` of its
group, if it has one. -/
structure Route where
  method : Text
  pattern : List Seg
  auth : Option Text
  handler : Handler
  deriving DecidableEq

/-- Function `AuthMiddleware`: `some` is the response of an aborted request,
`none` is `c.Next()`. -/
def AuthMiddleware (authToken : Text) (token : Text) : Option Response :=
  if token ≠ authToken then
    some { status := 401, contentType := some "application/json; charset=utf-8".toList,
           body := "\x7b\"error\":\"Unauthorized\"\x7d".toList }
  else none

/-- Method `InitRoutes`. -/
def InitRoutes (cfg : config) : List Route :=
  let get := "GET".toList
  let post := "POST".toList
  let lit := fun (s : String) => Seg.lit s.toList
  [ { method := get, pattern := [lit "_ping"], auth := none, handler := .pong },
    { method := get, pattern := [lit "models"], auth := none, handler := .models },
    { method := get, pattern := [lit "v1", lit "models"], auth := none, handler := .models } ] ++
  if cfg.AuthToken ≠ [] then
    let tok := Seg.param "token".toList
    [ { method := post, pattern := [tok, lit "v1", lit "chat", lit "completions"],
        auth := some cfg.AuthToken, handler := .completions },
      { method := post, pattern := [tok, lit "v1", lit "engines", lit "copilot-codex", lit "completions"],
        auth := some cfg.AuthToken, handler := .codeCompletions },
      { method := post, pattern := [tok, lit "v1", lit "v1", lit "chat", lit "completions"],
        auth := some cfg.AuthToken, handler := .completions },
      { method := post,
        pattern := [tok, lit "v1", lit "v1", lit "engines", lit "copilot-codex", lit "completions"],
        auth := some cfg.AuthToken, handler := .codeCompletions } ]
  else
    [ { method := post, pattern := [lit "v1", lit "chat", lit "completions"],
        auth := none, handler := .completions },
      { method := post, pattern := [lit "v1", lit "engines", lit "copilot-codex", lit "completions"],
        auth := none, handler := .codeCompletions },
      { method := post, pattern := [lit "v1", lit "v1", lit "chat", lit "completions"],
        auth := none, handler := .completions },
      { method := post,
        pattern := [lit "v1", lit "v1", lit "engines", lit "copilot-codex", lit "completions"],
        auth := none, handler := .codeCompletions } ]

/-- Match a path against a pattern, segment by segment, collecting the
parameters; a parameter takes one segment, which may be empty. -/
def matchPattern : List Seg → List Text → Option (List (Text × Text))
  | [], [] => some []
  | [], _ :: _ => none
  | _ :: _, [] => none
  | .lit s :: ps, x :: xs => if s = x then matchPattern ps xs else none
  | .param n :: ps, x :: xs => (matchPattern ps xs).map fun b => (n, x) :: b

/-- Gin `c.Param`: the value bound to the name, empty if there is none. -/
def Param (params : List (Text × Text)) (name : Text) : Text :=
  (params.lookup name).getD []

/-- What became of a request. -/
inductive Served where
  | notFound
  | aborted (r : Response)
  | handled (h : Handler)
  deriving DecidableEq

/-- The first registered route of the method whose pattern matches. -/
def findRoute : List Route → Text → List Text → Option (Route × List (Text × Text))
  | [], _, _ => none
  | r :: rs, method, path =>
    if r.method = method then
      match matchPattern r.pattern path with
      | some params => some (r, params)
      | none => findRoute rs method path
    else findRoute rs method path

/-- One request through the router: the route is looked up, the middleware
of its group runs, and unless it aborts the handler is invoked. -/
def serve (cfg : config) (method : Text) (path : List Text) : Served :=
  match findRoute (InitRoutes cfg) method path with
  | none => .notFound
  | some (r, params) =>
    match r.auth with
    | none => .handled r.handler
    | some authToken =>
      match AuthMiddleware authToken (Param params "token".toList) with
      | some resp => .aborted resp
      | none => .handled r.handler

/-- Lines 506-512 of `ConstructRequestBody`: the body after the two
deletions, the model and the cap on `max_tokens`. -/
def cappedCodeBody (body : Body) (cfg : config) : Body :=
  let body := DeleteBytes body "extra".toList
  let body := DeleteBytes body "nwo".toList
  let body := SetBytes body "model".toList (stringValue cfg.CodeInstructModel)
  if Result.Int (GetBytes body "max_tokens".toList) > cfg.CodexMaxTokens then
    SetBytes body "max_tokens".toList (.num cfg.CodexMaxTokens)
  else body

/-- The cap both rewrites apply to an integer field, on the values gjson
reads: the ceiling when `Int()` of the inbound value exceeds it, the inbound
value otherwise. -/
def capOf (ceiling : ℤ) (inbound : Result) : Result :=
  if Result.Int inbound > ceiling then some (.num ceiling) else inbound

mutual
/-- Apply a function to the raw text of every string token of a value,
keys included. -/
def mapRaw (f : Text → Text) : JSON → JSON
  | .null => .null
  | .bool b => .bool b
  | .num n => .num n
  | .str raw => .str (f raw)
  | .arr xs => .arr (mapRawElems f xs)
  | .obj ms => .obj (mapRawMembers f ms)
/-- The same over the elements of an array. -/
def mapRawElems (f : Text → Text) : List JSON → List JSON
  | [] => []
  | x :: xs => mapRaw f x :: mapRawElems f xs
/-- The same over the members of an object. -/
def mapRawMembers (f : Text → Text) : List (Text × JSON) → List (Text × JSON)
  | [] => []
  | (k, v) :: ms => (f k, mapRaw f v) :: mapRawMembers f ms
end

/-- The two replacements of `constructWithChatModel` on one raw text. -/
def unangle (raw : Text) : Text :=
  ReplaceAll (ReplaceAll raw "\\u003c".toList "<".toList) "\\u003e".toList ">".toList

/-- The members of a body whose decoded key is none of `names`, in document
order. -/
def unnamed (names : List Text) (body : Body) : Body :=
  body.filter fun m => !names.contains (unescape m.1)

/-- The fields the chat rewrite reads or writes. -/
def chatNames : List Text :=
  ["model".toList, "messages".toList, "max_tokens".toList, "intent".toList,
   "intent_threshold".toList, "intent_content".toList]

/-- The fields the code rewrite reads or writes. -/
def codeNames : List Text :=
  ["model".toList, "messages".toList, "prompt".toList, "suffix".toList, "n".toList,
   "max_tokens".toList, "extra".toList, "nwo".toList]

/-! ## Well-formed JSON text -/

/-- JSON whitespace is skipped. -/
def skipWs : Text → Text
  | [] => []
  | c :: s => if c = ' ' ∨ c = '\t' ∨ c = '\n' ∨ c = '\r' then skipWs s else c :: s

/-- A decimal digit. -/
def isDigit (c : Char) : Bool := decide (48 ≤ c.toNat) && decide (c.toNat ≤ 57)

/-- The text after a run of digits. -/
def dropDigits : Text → Text
  | [] => []
  | c :: s => if isDigit c then dropDigits s else c :: s

/-- The rest of a JSON string after its opening quote: the text after the
closing quote, `none` when the string holds a control character, an escape
JSON does not have, or no closing quote. -/
def validStringBody : Text → Option Text
  | [] => none
  | c :: s =>
    if c = '"' then some s
    else if c.toNat < 32 then none
    else if c = '\\' then
      match s with
      | [] => none
      | e :: s1 =>
        if e = '"' ∨ e = '\\' ∨ e = '/' ∨ e = 'b' ∨ e = 'f' ∨ e = 'n' ∨ e = 'r' ∨ e = 't' then
          validStringBody s1
        else if e = 'u' then
          match s1 with
          | h1 :: h2 :: h3 :: h4 :: s2 =>
            if (hexVal h1).isSome ∧ (hexVal h2).isSome ∧ (hexVal h3).isSome ∧ (hexVal h4).isSome then
              validStringBody s2
            else none
          | _ => none
        else none
    else validStringBody s

/-- A JSON number at the head of the text: the text after it. -/
def validNumber (s : Text) : Option Text :=
  let s1 := match s with
    | c :: r => if c = '-' then r else c :: r
    | [] => []
  let afterInt : Option Text := match s1 with
    | c :: r => if c = '0' then some r else if isDigit c then some (dropDigits r) else none
    | [] => none
  let afterFrac : Option Text := afterInt.bind fun r =>
    match r with
    | c :: r1 =>
      if c = '.' then
        match r1 with
        | d :: r2 => if isDigit d then some (dropDigits r2) else none
        | [] => none
      else some (c :: r1)
    | [] => some []
  afterFrac.bind fun r =>
    match r with
    | c :: r1 =>
      if c = 'e' ∨ c = 'E' then
        let r2 := match r1 with
          | d :: r3 => if d = '+' ∨ d = '-' then r3 else d :: r3
          | [] => []
        match r2 with
        | d :: r3 => if isDigit d then some (dropDigits r3) else none
        | [] => none
      else some (c :: r1)
    | [] => some []

mutual
/-- A JSON value at the head of the text (RFC 8259): the text after it,
`none` when there is none.  The first argument bounds the recursion. -/
def validValue : ℕ → Text → Option Text
  | 0, _ => none
  | fuel + 1, s =>
    match skipWs s with
    | [] => none
    | c :: r =>
      if c = '"' then validStringBody r
      else if c = '\x7b' then
        match skipWs r with
        | [] => none
        | d :: r2 => if d = '\x7d' then some r2 else validMembers fuel (d :: r2)
      else if c = '[' then
        match skipWs r with
        | [] => none
        | d :: r2 => if d = ']' then some r2 else validElems fuel (d :: r2)
      else if HasPrefix (c :: r) "true".toList then some (r.drop 3)
      else if HasPrefix (c :: r) "false".toList then some (r.drop 4)
      else if HasPrefix (c :: r) "null".toList then some (r.drop 3)
      else validNumber (c :: r)
/-- The elements of an array up to its closing bracket. -/
def validElems : ℕ → Text → Option Text
  | 0, _ => none
  | fuel + 1, s =>
    match validValue fuel s with
    | none => none
    | some r =>
      match skipWs r with
      | [] => none
      | d :: r2 => if d = ',' then validElems fuel r2 else if d = ']' then some r2 else none
/-- The members of an object up to its closing brace. -/
def validMembers : ℕ → Text → Option Text
  | 0, _ => none
  | fuel + 1, s =>
    match skipWs s with
    | [] => none
    | q :: r =>
      if q = '"' then
        match validStringBody r with
        | none => none
        | some r1 =>
          match skipWs r1 with
          | [] => none
          | col :: r2 =>
            if col = ':' then
              match validValue fuel r2 with
              | none => none
              | some r3 =>
                match skipWs r3 with
                | [] => none
                | d :: r4 =>
                  if d = ',' then validMembers fuel r4
                  else if d = '\x7d' then some r4
                  else none
            else none
      else none
end

/-- The text is one well-formed JSON object and nothing else. -/
def validJSONObject (s : Text) : Bool :=
  match skipWs s with
  | c :: _ =>
    c == '\x7b' &&
      match validValue (2 * s.length + 2) s with
      | some rest => (skipWs rest).isEmpty
      | none => false
  | [] => false

/-- A configuration with every field empty or zero. -/
def emptyConfig : config :=
  { Bind := [], ProxyUrl := [], Timeout := 0, CodexApiBase := [], CodexApiKey := [],
    CodexApiOrganization := [], CodexApiProject := [], CodexMaxTokens := 0,
    CodeInstructModel := [], ChatApiBase := [], ChatApiKey := [], ChatApiOrganization := [],
    ChatApiProject := [], ChatMaxTokens := 0, ChatModelDefault := [], ChatModelMap := [],
    ChatLocale := [], AuthToken := [] }

/-! ## Escaping round trip -/

theorem hexVal_hexDigit (k : ℕ) (hk : k < 16) : hexVal (hexDigit k) = some k := by
  interval_cases k <;> decide

theorem runeit_low (n : ℕ) (hn : n < 256) :
    runeit '0' '0' (hexDigit (n / 16)) (hexDigit (n % 16)) = n := by
  have h1 : hexVal (hexDigit (n / 16)) = some (n / 16) := hexVal_hexDigit _ (by omega)
  have h2 : hexVal (hexDigit (n % 16)) = some (n % 16) := hexVal_hexDigit _ (by omega)
  have h0 : hexVal '0' = some 0 := by decide
  simp only [runeit, h0, h1, h2]
  omega

theorem unescapeFrom_cons_plain (c : Char) (s : Text) (h1 : ¬ c.toNat < 32) (h2 : c ≠ '\\') :
    unescapeFrom 0 (c :: s) = c :: unescapeFrom 0 s := by
  rw [unescapeFrom.eq_def]
  simp [h1, h2]

theorem unescapeFrom_cons_short (e r : Char) (s : Text) (he : e ≠ 'u')
    (h : e = '\\' ∧ r = '\\' ∨ e = '/' ∧ r = '/' ∨ e = 'b' ∧ r = Char.ofNat 8 ∨
      e = 'f' ∧ r = Char.ofNat 12 ∨ e = 'n' ∧ r = '\n' ∨ e = 'r' ∧ r = '\r' ∨
      e = 't' ∧ r = '\t' ∨ e = '"' ∧ r = '"') :
    unescapeFrom 0 ('\\' :: e :: s) = r :: unescapeFrom 0 s := by
  rw [unescapeFrom.eq_def]
  rcases h with ⟨h, h'⟩ | ⟨h, h'⟩ | ⟨h, h'⟩ | ⟨h, h'⟩ | ⟨h, h'⟩ | ⟨h, h'⟩ | ⟨h, h'⟩ | ⟨h, h'⟩ <;>
    subst h <;> subst h' <;> simp

theorem unescapeFrom_cons_hex (h1 h2 h3 h4 : Char) (s : Text)
    (hs : isSurrogate (runeit h1 h2 h3 h4) = false) :
    unescapeFrom 0 ('\\' :: 'u' :: h1 :: h2 :: h3 :: h4 :: s) =
      Char.ofNat (runeit h1 h2 h3 h4) :: unescapeFrom 0 s := by
  rw [unescapeFrom.eq_def]
  simp [hs, encodeRune]

theorem unescapeFrom_escapeChar (c : Char) (rest : Text) :
    unescapeFrom 0 (escapeChar c ++ rest) = c :: unescapeFrom 0 rest := by
  unfold escapeChar
  split_ifs with h1 h2 h3 h4 h5 h6 h7 h8
  · subst h1; exact unescapeFrom_cons_short _ _ _ (by decide) (by simp)
  · subst h2; exact unescapeFrom_cons_short _ _ _ (by decide) (by simp)
  · subst h3; exact unescapeFrom_cons_short _ _ _ (by decide) (by simp)
  · subst h4; exact unescapeFrom_cons_short _ _ _ (by decide) (by simp)
  · subst h5; exact unescapeFrom_cons_short _ _ _ (by decide) (by simp)
  · have hlt : c.toNat < 256 := by
      rcases h6 with h | h | h | h
      · omega
      · subst h; decide
      · subst h; decide
      · subst h; decide
    have hr := runeit_low c.toNat hlt
    have hs : isSurrogate (runeit '0' '0' (hexDigit (c.toNat / 16)) (hexDigit (c.toNat % 16))) = false := by
      rw [hr]; simp [isSurrogate]; omega
    have := unescapeFrom_cons_hex _ _ _ _ rest hs
    rw [hr, Char.ofNat_toNat] at this
    simpa using this
  · have hc : c = Char.ofNat 0x2028 := by rw [← h7, Char.ofNat_toNat]
    subst hc
    exact unescapeFrom_cons_hex '2' '0' '2' '8' rest (by decide)
  · have hc : c = Char.ofNat 0x2029 := by rw [← h8, Char.ofNat_toNat]
    subst hc
    exact unescapeFrom_cons_hex '2' '0' '2' '9' rest (by decide)
  · have hge : ¬ c.toNat < 32 := by
      intro h; exact h6 (Or.inl h)
    exact unescapeFrom_cons_plain c rest hge h2

theorem unescape_marshalString (s : Text) : unescape (marshalString s) = s := by
  unfold unescape
  induction s with
  | nil => simp [marshalString, unescapeFrom]
  | cons c s ih => simp [marshalString, unescapeFrom_escapeChar, ih]

theorem unescapeFrom_plain (s : Text) (h : mustMarshalString s = false) :
    unescapeFrom 0 s = s := by
  induction s with
  | nil => simp [unescapeFrom]
  | cons c s ih =>
    simp only [mustMarshalString, List.any_cons, Bool.or_eq_false_iff, decide_eq_false_iff_not,
      beq_eq_false_iff_ne] at h
    obtain ⟨⟨⟨⟨h1, _⟩, _⟩, h4⟩, hs⟩ := h
    have ih2 := ih (by simpa [mustMarshalString] using hs)
    rw [unescapeFrom_cons_plain c s h1 h4, ih2]

/-- The string token sjson writes decodes to the string it was given. -/
theorem unescape_appendStringify (s : Text) : unescape (appendStringify s) = s := by
  unfold appendStringify
  split_ifs with h
  · exact unescape_marshalString s
  · exact unescapeFrom_plain s (by simpa using h)

/-! ## Object members -/

theorem objGet_setMember_self (ms : List (Text × JSON)) (key : Text) (v : JSON) :
    objGet (setMember ms key v) key = some v := by
  induction ms with
  | nil => simp [setMember, objGet, unescape_appendStringify]
  | cons m ms ih =>
    obtain ⟨k, x⟩ := m
    by_cases h : unescape k = key
    · simp [setMember, objGet, h]
    · simp [setMember, objGet, h, ih]

theorem objGet_setMember_ne (ms : List (Text × JSON)) (key key2 : Text) (v : JSON)
    (hne : key2 ≠ key) : objGet (setMember ms key v) key2 = objGet ms key2 := by
  induction ms with
  | nil => simp [setMember, objGet, unescape_appendStringify, Ne.symm hne]
  | cons m ms ih =>
    obtain ⟨k, x⟩ := m
    by_cases h : unescape k = key
    · subst h
      have h2 : ¬ unescape k = key2 := fun h3 => hne h3.symm
      simp [setMember, objGet, h2]
    · by_cases h2 : unescape k = key2
      · subst h2
        simp [setMember, objGet, h]
      · simp [setMember, objGet, h, h2, ih]

theorem objGet_deleteMember_ne (ms : List (Text × JSON)) (key key2 : Text)
    (hne : key2 ≠ key) : objGet (deleteMember ms key) key2 = objGet ms key2 := by
  induction ms with
  | nil => simp [deleteMember]
  | cons m ms ih =>
    obtain ⟨k, x⟩ := m
    by_cases h : unescape k = key
    · subst h
      have h2 : ¬ unescape k = key2 := fun h3 => hne h3.symm
      simp [deleteMember, objGet, h2]
    · by_cases h2 : unescape k = key2
      · subst h2
        simp [deleteMember, objGet, h]
      · simp [deleteMember, objGet, h, h2, ih]

theorem objGet_append_ne (ms : List (Text × JSON)) (k key2 : Text) (v : JSON)
    (hne : unescape k ≠ key2) : objGet (ms ++ [(k, v)]) key2 = objGet ms key2 := by
  induction ms with
  | nil => simp [objGet, hne]
  | cons m ms ih =>
    obtain ⟨k1, x⟩ := m
    by_cases h : unescape k1 = key2
    · simp [objGet, h]
    · simp [objGet, h, ih]

theorem GetBytes_SetMessageContent_ne (body : Body) (n : ℕ) (v : JSON) (key2 : Text)
    (hne : key2 ≠ "messages".toList) :
    GetBytes (SetMessageContent body n v) key2 = GetBytes body key2 := by
  unfold SetMessageContent GetBytes
  cases hm : objGet body "messages".toList with
  | none =>
    have hu : unescape "messages".toList = "messages".toList := by decide
    exact objGet_append_ne _ _ _ _ (by rw [hu]; exact Ne.symm hne)
  | some m =>
    cases hs : setIndexContent m n v with
    | none => simp only [hs]
    | some m2 =>
      simp only [hs]
      exact objGet_setMember_ne _ _ _ _ hne

/-! ## The chat rewrite -/

theorem index_last (init : List JSON) (e : JSON) :
    index (init ++ [e]) (((init ++ [e]).length : ℤ) - 1) = some e := by
  unfold index
  have h : (((init ++ [e]).length : ℤ) - 1) = (init.length : ℤ) := by
    simp
  rw [h]
  simp

theorem index_nil (i : ℤ) : index [] i = none := by
  unfold index
  split_ifs <;> simp

theorem GetBytes_mapModel_ne (cfg : config) (body : Body) (key2 : Text)
    (hne : key2 ≠ "model".toList) : GetBytes (mapModel cfg body) key2 = GetBytes body key2 := by
  unfold mapModel GetBytes SetBytes
  exact objGet_setMember_ne _ _ _ _ hne

theorem GetBytes_mapModel_model (cfg : config) (body : Body) :
    Result.String (GetBytes (mapModel cfg body) "model".toList) =
      match cfg.ChatModelMap.lookup (Result.String (GetBytes body "model".toList)) with
      | some mapped => mapped
      | none => cfg.ChatModelDefault := by
  unfold mapModel GetBytes SetBytes
  simp only [objGet_setMember_self, Result.String, stringValue, unescape_appendStringify]

theorem GetBytes_capChat_ne (cfg : config) (body : Body) (key2 : Text)
    (h1 : key2 ≠ "intent".toList) (h2 : key2 ≠ "intent_threshold".toList)
    (h3 : key2 ≠ "intent_content".toList) (h4 : key2 ≠ "max_tokens".toList) :
    GetBytes (capChat cfg body) key2 = GetBytes body key2 := by
  unfold capChat
  simp only [GetBytes, SetBytes, DeleteBytes]
  split_ifs
  · rw [objGet_setMember_ne _ _ _ _ h4, objGet_deleteMember_ne _ _ _ h3,
      objGet_deleteMember_ne _ _ _ h2, objGet_deleteMember_ne _ _ _ h1]
  · rw [objGet_deleteMember_ne _ _ _ h3, objGet_deleteMember_ne _ _ _ h2,
      objGet_deleteMember_ne _ _ _ h1]

theorem appendLocale_of_exists (cfg : config) (body : Body)
    (hfc : Result.Exists (GetBytes body "function_call".toList) = true) :
    appendLocale cfg body = some body := by
  unfold appendLocale
  rw [hfc]
  rfl

theorem appendLocale_of_nil (cfg : config) (body : Body)
    (hfc : Result.Exists (GetBytes body "function_call".toList) = false)
    (hm : Result.Array (GetBytes body "messages".toList) = []) :
    appendLocale cfg body = none := by
  unfold appendLocale
  simp only [hfc, hm, index_nil]
  rfl

theorem appendLocale_of_last (cfg : config) (body : Body) (init : List JSON) (e : JSON)
    (hfc : Result.Exists (GetBytes body "function_call".toList) = false)
    (hm : Result.Array (GetBytes body "messages".toList) = init ++ [e]) :
    appendLocale cfg body =
      if Contains (Result.String (Result.Get e "content".toList)) localeMarker = true then some body
      else some (SetMessageContent body init.length
        (stringValue (Result.String (Result.Get e "content".toList) ++
          "Respond in the following locale: ".toList ++
          (if cfg.ChatLocale = [] then "zh_CN".toList else cfg.ChatLocale) ++ ".".toList))) := by
  unfold appendLocale
  have hn : ((((init ++ [e]).length : ℤ) - 1)).toNat = init.length := by simp
  simp only [hfc, hm, index_last, hn]
  cases Contains (Result.String (Result.Get e "content".toList)) localeMarker <;> simp

theorem appendLocale_cases (cfg : config) (body : Body) :
    appendLocale cfg body = none ∨ appendLocale cfg body = some body ∨
      ∃ n v, appendLocale cfg body = some (SetMessageContent body n v) := by
  cases hfc : Result.Exists (GetBytes body "function_call".toList) with
  | true => exact Or.inr (Or.inl (appendLocale_of_exists cfg body hfc))
  | false =>
    rcases List.eq_nil_or_concat (Result.Array (GetBytes body "messages".toList)) with hm | ⟨init, e, hm⟩
    · exact Or.inl (appendLocale_of_nil cfg body hfc hm)
    · rw [List.concat_eq_append] at hm
      rw [appendLocale_of_last cfg body init e hfc hm]
      by_cases hc : Contains (Result.String (Result.Get e "content".toList)) localeMarker = true
      · rw [if_pos hc]
        exact Or.inr (Or.inl rfl)
      · rw [if_neg hc]
        exact Or.inr (Or.inr ⟨_, _, rfl⟩)

theorem GetBytes_appendLocale_ne (cfg : config) (body out : Body) (key2 : Text)
    (hne : key2 ≠ "messages".toList) (h : appendLocale cfg body = some out) :
    GetBytes out key2 = GetBytes body key2 := by
  rcases appendLocale_cases cfg body with h1 | h1 | ⟨n, v, h1⟩
  · rw [h1] at h; cases h
  · rw [h1] at h; cases h; rfl
  · rw [h1] at h; cases h
    exact GetBytes_SetMessageContent_ne _ _ _ _ hne

/-- The handler reaches the end of the rewrite whenever `function_call` is
present or `messages` has a last element. -/
theorem appendLocale_isSome (cfg : config) (body : Body)
    (h : Result.Exists (GetBytes body "function_call".toList) = true ∨
      Result.Array (GetBytes body "messages".toList) ≠ []) :
    ∃ out, appendLocale cfg body = some out := by
  cases hfc : Result.Exists (GetBytes body "function_call".toList) with
  | true => exact ⟨_, appendLocale_of_exists cfg body hfc⟩
  | false =>
    rcases List.eq_nil_or_concat (Result.Array (GetBytes body "messages".toList)) with hm | ⟨init, e, hm⟩
    · rcases h with h | h
      · rw [hfc] at h; cases h
      · exact absurd hm h
    · rw [List.concat_eq_append] at hm
      rw [appendLocale_of_last cfg body init e hfc hm]
      by_cases hc : Contains (Result.String (Result.Get e "content".toList)) localeMarker = true
      · rw [if_pos hc]
        exact ⟨_, rfl⟩
      · rw [if_neg hc]
        exact ⟨_, rfl⟩

theorem completionsBody_eq (cfg : config) (body mid : Body)
    (h : appendLocale cfg (mapModel cfg body) = some mid) :
    completionsBody cfg body = some (capChat cfg mid) := by
  unfold completionsBody
  rw [h]
  rfl

theorem SetMessageContent_last (body : Body) (init : List JSON) (ms : List (Text × JSON))
    (v : JSON) (hm : GetBytes body "messages".toList = some (.arr (init ++ [.obj ms]))) :
    GetBytes (SetMessageContent body init.length v) "messages".toList =
      some (.arr (init ++ [.obj (setMember ms "content".toList v)])) := by
  unfold GetBytes at hm
  unfold SetMessageContent GetBytes
  have hs : setIndexContent (.arr (init ++ [.obj ms])) init.length v =
      some (.arr (init ++ [.obj (setMember ms "content".toList v)])) := by
    simp [setIndexContent, setContent]
  simp only [hm, hs]
  exact objGet_setMember_self _ _ _

/-- C1 (amended): whenever `function_call` is present or `messages` has a
last element, the chat rewrite of `completions` completes and the output
`model` decodes to `chat_model_map[k]` if `k` is a key of `chat_model_map`
and to `chat_model_default` otherwise, where `k` is the text gjson reads for
the inbound `model`: the string itself, and the empty string when `model`
is absent. -/
theorem completions_model_mapped (cfg : config) (body : Body)
    (h : Result.Exists (GetBytes body "function_call".toList) = true ∨
      Result.Array (GetBytes body "messages".toList) ≠ []) :
    ∃ out, completionsBody cfg body = some out ∧
      Result.String (GetBytes out "model".toList) =
        match cfg.ChatModelMap.lookup (Result.String (GetBytes body "model".toList)) with
        | some mapped => mapped
        | none => cfg.ChatModelDefault := by
  have h2 : Result.Exists (GetBytes (mapModel cfg body) "function_call".toList) = true ∨
      Result.Array (GetBytes (mapModel cfg body) "messages".toList) ≠ [] := by
    rw [GetBytes_mapModel_ne cfg body _ (by decide), GetBytes_mapModel_ne cfg body _ (by decide)]
    exact h
  obtain ⟨mid, hmid⟩ := appendLocale_isSome cfg (mapModel cfg body) h2
  refine ⟨capChat cfg mid, completionsBody_eq cfg body mid hmid, ?_⟩
  rw [GetBytes_capChat_ne cfg mid _ (by decide) (by decide) (by decide) (by decide),
    GetBytes_appendLocale_ne cfg _ mid _ (by decide) hmid]
  exact GetBytes_mapModel_model cfg body

/-- Witness of C1: model `gpt-4` mapped to `deepseek-chat`. -/
theorem completions_model_mapped_witness :
    ∃ out, completionsBody
        { emptyConfig with ChatModelDefault := "fallback".toList,
                           ChatModelMap := [("gpt-4".toList, "deepseek-chat".toList)] }
        [("model".toList, .str "gpt-4".toList),
         ("messages".toList, .arr [.obj [("content".toList, .str "hi".toList)]])] = some out ∧
      Result.String (GetBytes out "model".toList) = "deepseek-chat".toList :=
  completions_model_mapped
    { emptyConfig with ChatModelDefault := "fallback".toList,
                       ChatModelMap := [("gpt-4".toList, "deepseek-chat".toList)] }
    [("model".toList, .str "gpt-4".toList),
     ("messages".toList, .arr [.obj [("content".toList, .str "hi".toList)]])]
    (Or.inr (by intro h; cases h))

/-- C1 as stated fails: with the empty string a key of `chat_model_map`, a
body without `model` gets the value mapped to the empty key, not
`chat_model_default`. -/
theorem completions_model_counterexample :
    Result.Exists (GetBytes [("messages".toList, .arr [.obj [("content".toList, .str "hi".toList)]])]
      "model".toList) = false ∧
    (completionsBody
        { emptyConfig with ChatModelDefault := "fallback".toList,
                           ChatModelMap := [([], "gpt-x".toList)] }
        [("messages".toList, .arr [.obj [("content".toList, .str "hi".toList)]])]).map
      (fun out => Result.String (GetBytes out "model".toList)) = some "gpt-x".toList ∧
    "gpt-x".toList ≠ "fallback".toList := by
  decide

/-- C2: without `function_call`, when `messages` is an array whose last
element is an object and the text of its `content` lacks the marker, the
rewrite completes, `messages` keeps every earlier element and its last
element has `content` set to a string that decodes to the original text
followed by the locale instruction (`chat_locale`, or `zh_CN` when that is
empty); with `function_call` present the rewrite completes and `messages` is
what it was. -/
theorem completions_locale_appended (cfg : config) (body : Body) :
    (∀ (init : List JSON) (ms : List (Text × JSON)),
      Result.Exists (GetBytes body "function_call".toList) = false →
      GetBytes body "messages".toList = some (.arr (init ++ [.obj ms])) →
      Contains (Result.String (objGet ms "content".toList)) localeMarker = false →
      ∃ out ms2, completionsBody cfg body = some out ∧
        GetBytes out "messages".toList = some (.arr (init ++ [.obj ms2])) ∧
        Result.String (objGet ms2 "content".toList) =
          Result.String (objGet ms "content".toList) ++ "Respond in the following locale: ".toList ++
            (if cfg.ChatLocale = [] then "zh_CN".toList else cfg.ChatLocale) ++ ".".toList) ∧
    (Result.Exists (GetBytes body "function_call".toList) = true →
      ∃ out, completionsBody cfg body = some out ∧
        GetBytes out "messages".toList = GetBytes body "messages".toList) := by
  constructor
  · intro init ms hfc hm hc
    have hfc2 : Result.Exists (GetBytes (mapModel cfg body) "function_call".toList) = false := by
      rw [GetBytes_mapModel_ne cfg body _ (by decide)]; exact hfc
    have hm2 : GetBytes (mapModel cfg body) "messages".toList = some (.arr (init ++ [.obj ms])) := by
      rw [GetBytes_mapModel_ne cfg body _ (by decide)]; exact hm
    have ha : Result.Array (GetBytes (mapModel cfg body) "messages".toList) = init ++ [.obj ms] := by
      rw [hm2]; rfl
    have hmid := appendLocale_of_last cfg (mapModel cfg body) init (.obj ms) hfc2 ha
    have hg : Result.Get (.obj ms) "content".toList = objGet ms "content".toList := rfl
    rw [hg, if_neg (by rw [hc]; simp)] at hmid
    generalize Result.String (objGet ms "content".toList) ++
      "Respond in the following locale: ".toList ++
      (if cfg.ChatLocale = [] then "zh_CN".toList else cfg.ChatLocale) ++ ".".toList = txt at hmid ⊢
    refine ⟨capChat cfg (SetMessageContent (mapModel cfg body) init.length (stringValue txt)),
      setMember ms "content".toList (stringValue txt), completionsBody_eq cfg body _ hmid, ?_, ?_⟩
    · rw [GetBytes_capChat_ne cfg _ _ (by decide) (by decide) (by decide) (by decide)]
      exact SetMessageContent_last _ init ms _ hm2
    · rw [objGet_setMember_self]
      simp only [Result.String, stringValue, unescape_appendStringify]
  · intro hfc
    have hfc2 : Result.Exists (GetBytes (mapModel cfg body) "function_call".toList) = true := by
      rw [GetBytes_mapModel_ne cfg body _ (by decide)]; exact hfc
    have hmid := appendLocale_of_exists cfg (mapModel cfg body) hfc2
    refine ⟨_, completionsBody_eq cfg body _ hmid, ?_⟩
    rw [GetBytes_capChat_ne cfg _ _ (by decide) (by decide) (by decide) (by decide)]
    exact GetBytes_mapModel_ne cfg body _ (by decide)

/-- Witness of C2: the last message `hi` gets the `zh_CN` instruction, and
a body with `function_call` keeps its messages. -/
theorem completions_locale_appended_witness :
    (∃ out ms2, completionsBody emptyConfig
        [("messages".toList, .arr ([] ++ [.obj [("role".toList, .str "user".toList),
          ("content".toList, .str "hi".toList)]]))] = some out ∧
      GetBytes out "messages".toList = some (.arr ([] ++ [.obj ms2])) ∧
      Result.String (objGet ms2 "content".toList) =
        "hiRespond in the following locale: zh_CN.".toList) ∧
    (∃ out, completionsBody emptyConfig
        [("function_call".toList, .str "auto".toList), ("messages".toList, .arr [])] = some out ∧
      GetBytes out "messages".toList = some (.arr [])) :=
  ⟨(completions_locale_appended emptyConfig
      [("messages".toList, .arr ([] ++ [.obj [("role".toList, .str "user".toList),
        ("content".toList, .str "hi".toList)]]))]).1 []
      [("role".toList, .str "user".toList), ("content".toList, .str "hi".toList)]
      (by decide) (by rfl) (by decide),
   (completions_locale_appended emptyConfig
      [("function_call".toList, .str "auto".toList), ("messages".toList, .arr [])]).2 (by decide)⟩

/-- C3 (code bug): without `function_call`, when `messages` is absent, null
or an empty array, the rewrite does not complete: `messages[lastIndex]` is
read at index -1 and the handler panics, whatever the upstream. -/
theorem completions_panics_without_last_message (cfg : config) (up : Upstream) (body : Body)
    (hfc : Result.Exists (GetBytes body "function_call".toList) = false)
    (hm : Result.Array (GetBytes body "messages".toList) = []) :
    completionsBody cfg body = none ∧ completions cfg up (some body) = none := by
  have hfc2 : Result.Exists (GetBytes (mapModel cfg body) "function_call".toList) = false := by
    rw [GetBytes_mapModel_ne cfg body _ (by decide)]; exact hfc
  have hm2 : Result.Array (GetBytes (mapModel cfg body) "messages".toList) = [] := by
    rw [GetBytes_mapModel_ne cfg body _ (by decide)]; exact hm
  have h : completionsBody cfg body = none := by
    unfold completionsBody
    rw [appendLocale_of_nil cfg _ hfc2 hm2]
    rfl
  refine ⟨h, ?_⟩
  unfold completions
  simp only [h]

/-- Witness of C3: the body `{"model":"gpt-4","messages":[]}`. -/
theorem completions_panics_without_last_message_witness :
    completionsBody emptyConfig
        [("model".toList, .str "gpt-4".toList), ("messages".toList, .arr [])] = none ∧
      completions emptyConfig { newRequest := fun _ => true, Do := fun _ _ => .error .other }
        (some [("model".toList, .str "gpt-4".toList), ("messages".toList, .arr [])]) = none :=
  completions_panics_without_last_message emptyConfig
    { newRequest := fun _ => true, Do := fun _ _ => .error .other }
    [("model".toList, .str "gpt-4".toList), ("messages".toList, .arr [])] (by decide) (by rfl)

/-! ## The cap on `max_tokens` -/

theorem wrapInt64_of_range (n : ℤ) (h1 : -2 ^ 63 ≤ n) (h2 : n < 2 ^ 63) : wrapInt64 n = n := by
  unfold wrapInt64
  norm_num at h1 h2 ⊢
  rw [Int.emod_eq_of_lt (by omega) (by omega)]
  omega

theorem capOf_num (ceiling k : ℤ) :
    capOf ceiling (some (.num k)) =
      if wrapInt64 k > ceiling then some (.num ceiling) else some (.num k) := rfl

theorem capOf_none (ceiling : ℤ) :
    capOf ceiling none = if 0 > ceiling then some (.num ceiling) else none := rfl

/-- The cap step shared by both rewrites, for any field. -/
theorem cap_step (key : Text) (ceiling : ℤ) (body : Body) :
    GetBytes
      (if Result.Int (GetBytes body key) > ceiling then SetBytes body key (.num ceiling)
      else body) key = capOf ceiling (GetBytes body key) := by
  unfold capOf
  split_ifs
  · exact objGet_setMember_self _ _ _
  · rfl

theorem capChat_cap (cfg : config) (body : Body) :
    GetBytes (capChat cfg body) "max_tokens".toList =
      capOf cfg.ChatMaxTokens (GetBytes body "max_tokens".toList) := by
  have hg : GetBytes (DeleteBytes (DeleteBytes (DeleteBytes body "intent".toList)
      "intent_threshold".toList) "intent_content".toList) "max_tokens".toList =
      GetBytes body "max_tokens".toList := by
    simp only [GetBytes, DeleteBytes]
    rw [objGet_deleteMember_ne _ _ _ (by decide), objGet_deleteMember_ne _ _ _ (by decide),
      objGet_deleteMember_ne _ _ _ (by decide)]
  unfold capChat
  simp only []
  rw [cap_step, hg]

theorem ConstructRequestBody_eq (body : Body) (cfg : config) :
    ConstructRequestBody body cfg =
      if Contains cfg.CodeInstructModel StableCodeModelPrefix then
        constructWithStableCodeModel (cappedCodeBody body cfg)
      else
        renderBody
          (if HasPrefix cfg.CodeInstructModel DeepSeekCoderModel then
            if Result.Int (GetBytes (cappedCodeBody body cfg) "n".toList) > 1 then
              SetBytes (cappedCodeBody body cfg) "n".toList (.num 1)
            else cappedCodeBody body cfg
          else cappedCodeBody body cfg) := rfl

theorem ConstructRequestBody_of_not_stable (body : Body) (cfg : config)
    (hs : Contains cfg.CodeInstructModel StableCodeModelPrefix = false) :
    ConstructRequestBody body cfg =
      renderBody
        (if HasPrefix cfg.CodeInstructModel DeepSeekCoderModel then
          if Result.Int (GetBytes (cappedCodeBody body cfg) "n".toList) > 1 then
            SetBytes (cappedCodeBody body cfg) "n".toList (.num 1)
          else cappedCodeBody body cfg
        else cappedCodeBody body cfg) := by
  rw [ConstructRequestBody_eq, hs]
  rfl

theorem GetBytes_cappedCodeBody_max_tokens (body : Body) (cfg : config) :
    GetBytes (cappedCodeBody body cfg) "max_tokens".toList =
      capOf cfg.CodexMaxTokens (GetBytes body "max_tokens".toList) := by
  have hg : GetBytes (SetBytes (DeleteBytes (DeleteBytes body "extra".toList) "nwo".toList)
      "model".toList (stringValue cfg.CodeInstructModel)) "max_tokens".toList =
      GetBytes body "max_tokens".toList := by
    simp only [GetBytes, DeleteBytes, SetBytes]
    rw [objGet_setMember_ne _ _ _ _ (by decide), objGet_deleteMember_ne _ _ _ (by decide),
      objGet_deleteMember_ne _ _ _ (by decide)]
  unfold cappedCodeBody
  simp only []
  rw [cap_step, hg]

theorem GetBytes_cappedCodeBody_ne (body : Body) (cfg : config) (key : Text)
    (h1 : key ≠ "extra".toList) (h2 : key ≠ "nwo".toList) (h3 : key ≠ "model".toList)
    (h4 : key ≠ "max_tokens".toList) :
    GetBytes (cappedCodeBody body cfg) key = GetBytes body key := by
  unfold cappedCodeBody
  simp only [GetBytes, DeleteBytes, SetBytes]
  split_ifs
  · rw [objGet_setMember_ne _ _ _ _ h4, objGet_setMember_ne _ _ _ _ h3,
      objGet_deleteMember_ne _ _ _ h2, objGet_deleteMember_ne _ _ _ h1]
  · rw [objGet_setMember_ne _ _ _ _ h3,
      objGet_deleteMember_ne _ _ _ h2, objGet_deleteMember_ne _ _ _ h1]

/-! ## Text replacement and serialization -/

theorem replaceFrom_nil (old new : Text) (k : ℕ) : replaceFrom old new k [] = [] := by
  cases k <;> rfl

theorem replaceFrom_succ (old new : Text) (k : ℕ) (c : Char) (s : Text) :
    replaceFrom old new (k + 1) (c :: s) = replaceFrom old new k s := by
  rw [replaceFrom.eq_def]

theorem replaceFrom_zero (old new : Text) (c : Char) (s : Text) :
    replaceFrom old new 0 (c :: s) =
      if HasPrefix (c :: s) old then new ++ replaceFrom old new (old.length - 1) s
      else c :: replaceFrom old new 0 s := by
  rw [replaceFrom.eq_def]

theorem HasPrefix_append (a x old : Text) (h : HasPrefix a old = true) :
    HasPrefix (a ++ x) old = true := by
  induction old generalizing a with
  | nil => cases a <;> cases x <;> rfl
  | cons o tl ih =>
    cases a with
    | nil => simp [HasPrefix] at h
    | cons c s =>
      simp only [HasPrefix, Bool.and_eq_true] at h ⊢
      exact ⟨h.1, ih s h.2⟩

theorem HasPrefix_of_append_sep (q : Char) (a rest old : Text) (hq : q ∉ old)
    (h : HasPrefix (a ++ q :: rest) old = true) : HasPrefix a old = true := by
  induction old generalizing a with
  | nil => cases a <;> rfl
  | cons o tl ih =>
    cases a with
    | nil =>
      simp only [List.nil_append, HasPrefix, Bool.and_eq_true, beq_iff_eq] at h
      exact absurd (h.1 ▸ List.mem_cons_self _ _) hq
    | cons c s =>
      simp only [List.cons_append, HasPrefix, Bool.and_eq_true] at h ⊢
      exact ⟨h.1, ih s (fun hm => hq (List.mem_cons_of_mem _ hm)) h.2⟩

theorem HasPrefix_length (a old : Text) (h : HasPrefix a old = true) : old.length ≤ a.length := by
  induction old generalizing a with
  | nil => simp
  | cons o tl ih =>
    cases a with
    | nil => simp [HasPrefix] at h
    | cons c s =>
      simp only [HasPrefix, Bool.and_eq_true] at h
      simpa using ih s h.2

theorem HasPrefix_head_ne (c o : Char) (s tl : Text) (h : c ≠ o) :
    HasPrefix (c :: s) (o :: tl) = false := by
  simp [HasPrefix, h]

/-- Text without the first character of `old` passes unchanged. -/
theorem replaceFrom_plain (o : Char) (tl new : Text) (t u : Text) (h : ∀ c ∈ t, c ≠ o) :
    replaceFrom (o :: tl) new 0 (t ++ u) = t ++ replaceFrom (o :: tl) new 0 u := by
  induction t with
  | nil => rfl
  | cons c s ih =>
    have hc : c ≠ o := h c (List.mem_cons_self _ _)
    rw [List.cons_append, replaceFrom_zero, HasPrefix_head_ne c o _ tl hc]
    simp only [Bool.false_eq_true, if_false]
    rw [ih (fun d hd => h d (List.mem_cons_of_mem _ hd))]
    rfl

/-- A character that does not occur in `old` ends every match before it. -/
theorem replaceFrom_sep (old new : Text) (q : Char) (hq : q ∉ old) (hne : old ≠ []) (rest : Text) :
    ∀ (raw : Text) (k : ℕ), k ≤ raw.length →
      replaceFrom old new k (raw ++ q :: rest) =
        replaceFrom old new k raw ++ q :: replaceFrom old new 0 rest := by
  intro raw
  induction raw with
  | nil =>
    intro k hk
    have hk0 : k = 0 := by simpa using hk
    subst hk0
    obtain ⟨o, tl, rfl⟩ := List.exists_cons_of_ne_nil hne
    have hqo : q ≠ o := fun h => hq (h ▸ List.mem_cons_self _ _)
    rw [List.nil_append, replaceFrom_zero, HasPrefix_head_ne q o _ tl hqo, replaceFrom_nil]
    rfl
  | cons c s ih =>
    intro k hk
    cases k with
    | succ k =>
      rw [List.cons_append, replaceFrom_succ, replaceFrom_succ]
      exact ih k (by simpa using hk)
    | zero =>
      rw [List.cons_append, replaceFrom_zero, replaceFrom_zero]
      by_cases hp : HasPrefix (c :: s) old = true
      · have hp2 : HasPrefix (c :: (s ++ q :: rest)) old = true := by
          have := HasPrefix_append (c :: s) (q :: rest) old hp
          simpa using this
        have hl := HasPrefix_length _ _ hp
        rw [if_pos hp, if_pos hp2, ih (old.length - 1) (by simp at hl; omega)]
        simp
      · have hp2 : ¬ HasPrefix (c :: (s ++ q :: rest)) old = true := by
          intro h
          apply hp
          have h' : HasPrefix ((c :: s) ++ q :: rest) old = true := by simpa using h
          exact HasPrefix_of_append_sep q (c :: s) rest old hq h'
        rw [if_neg hp, if_neg hp2, ih 0 (Nat.zero_le _)]
        simp

theorem digitChar_isDigit (d : ℕ) (h : d < 10) : isDigit (Nat.digitChar d) = true := by
  interval_cases d <;> decide

theorem toDigitsCore_isDigit (fuel : ℕ) : ∀ (n : ℕ) (ds : List Char),
    (∀ c ∈ ds, isDigit c = true) → ∀ c ∈ Nat.toDigitsCore 10 fuel n ds, isDigit c = true := by
  induction fuel with
  | zero => intro n ds h; simpa [Nat.toDigitsCore] using h
  | succ fuel ih =>
    intro n ds h
    have hd : isDigit (Nat.digitChar (n % 10)) = true := digitChar_isDigit _ (Nat.mod_lt _ (by decide))
    have h2 : ∀ c ∈ Nat.digitChar (n % 10) :: ds, isDigit c = true := by
      intro c hc
      rcases List.mem_cons.mp hc with hc | hc
      · rw [hc]; exact hd
      · exact h c hc
    unfold Nat.toDigitsCore
    simp only []
    split_ifs
    · exact h2
    · exact ih _ _ h2

theorem natRepr_isDigit (n : ℕ) : ∀ c ∈ (toString n).toList, isDigit c = true := by
  have : (toString n).toList = Nat.toDigits 10 n := by
    simp [toString, Nat.repr, String.toList, List.asString]
  rw [this]
  exact toDigitsCore_isDigit _ _ _ (by simp)

theorem intRepr_chars (n : ℤ) : ∀ c ∈ (toString n).toList, c = '-' ∨ isDigit c = true := by
  cases n with
  | ofNat m =>
    intro c hc
    have : (toString (Int.ofNat m)).toList = (toString m).toList := by
      rfl
    rw [this] at hc
    exact Or.inr (natRepr_isDigit m c hc)
  | negSucc m =>
    intro c hc
    have : (toString (Int.negSucc m)).toList = '-' :: (toString (m + 1)).toList := by
      rfl
    rw [this] at hc
    rcases List.mem_cons.mp hc with hc | hc
    · exact Or.inl hc
    · exact Or.inr (natRepr_isDigit _ c hc)

theorem intRepr_ne (n : ℤ) (o : Char) (h1 : o ≠ '-') (h2 : isDigit o = false) :
    ∀ c ∈ (toString n).toList, c ≠ o := by
  intro c hc hco
  subst hco
  rcases intRepr_chars n c hc with h | h
  · exact h1 h
  · rw [h2] at h; cases h

mutual
theorem replace_render (tl new : Text) (hq : '"' ∉ '\\' :: tl) : ∀ (t : JSON) (rest : Text),
    replaceFrom ('\\' :: tl) new 0 (render t ++ rest) =
      render (mapRaw (fun raw => replaceFrom ('\\' :: tl) new 0 raw) t) ++
        replaceFrom ('\\' :: tl) new 0 rest
  | .null, rest => replaceFrom_plain _ _ _ _ _ (by decide)
  | .bool true, rest => replaceFrom_plain _ _ _ _ _ (by decide)
  | .bool false, rest => replaceFrom_plain _ _ _ _ _ (by decide)
  | .num n, rest => replaceFrom_plain _ _ _ _ _ (intRepr_ne n _ (by decide) (by decide))
  | .str raw, rest => by
    have h1 := replaceFrom_plain '\\' tl new ['"'] (raw ++ '"' :: rest) (by decide)
    have h2 := replaceFrom_sep ('\\' :: tl) new '"' hq (by simp) rest raw 0 (Nat.zero_le _)
    simp only [render, mapRaw, List.cons_append, List.append_assoc, List.nil_append,
      List.singleton_append] at h1 ⊢
    rw [h1, h2]
  | .arr xs, rest => by
    have h1 := replaceFrom_plain '\\' tl new ['['] (renderElems xs ++ ']' :: rest) (by decide)
    have h2 := replace_renderElems tl new hq xs (']' :: rest)
    have h3 := replaceFrom_plain '\\' tl new [']'] rest (by decide)
    simp only [render, mapRaw, List.cons_append, List.append_assoc, List.nil_append,
      List.singleton_append] at h1 h3 ⊢
    rw [h1, h2, h3]
  | .obj ms, rest => by
    have h1 := replaceFrom_plain '\\' tl new ['\x7b'] (renderMembers ms ++ '\x7d' :: rest) (by decide)
    have h2 := replace_renderMembers tl new hq ms ('\x7d' :: rest)
    have h3 := replaceFrom_plain '\\' tl new ['\x7d'] rest (by decide)
    simp only [render, mapRaw, List.cons_append, List.append_assoc, List.nil_append,
      List.singleton_append] at h1 h3 ⊢
    rw [h1, h2, h3]
theorem replace_renderElems (tl new : Text) (hq : '"' ∉ '\\' :: tl) : ∀ (xs : List JSON) (rest : Text),
    replaceFrom ('\\' :: tl) new 0 (renderElems xs ++ rest) =
      renderElems (mapRawElems (fun raw => replaceFrom ('\\' :: tl) new 0 raw) xs) ++
        replaceFrom ('\\' :: tl) new 0 rest
  | [], rest => rfl
  | [x], rest => by
    have h := replace_render tl new hq x rest
    simpa only [renderElems, mapRawElems] using h
  | x :: y :: xs, rest => by
    have h1 := replace_render tl new hq x (',' :: (renderElems (y :: xs) ++ rest))
    have h2 := replaceFrom_plain '\\' tl new [','] (renderElems (y :: xs) ++ rest) (by decide)
    have h3 := replace_renderElems tl new hq (y :: xs) rest
    simp only [renderElems, mapRawElems, List.cons_append, List.append_assoc, List.nil_append,
      List.singleton_append] at h1 h2 h3 ⊢
    rw [h1, h2, h3]
theorem replace_renderMembers (tl new : Text) (hq : '"' ∉ '\\' :: tl) :
    ∀ (ms : List (Text × JSON)) (rest : Text),
    replaceFrom ('\\' :: tl) new 0 (renderMembers ms ++ rest) =
      renderMembers (mapRawMembers (fun raw => replaceFrom ('\\' :: tl) new 0 raw) ms) ++
        replaceFrom ('\\' :: tl) new 0 rest
  | [], rest => rfl
  | [(k, v)], rest => by
    have h1 := replaceFrom_plain '\\' tl new ['"'] (k ++ '"' :: ':' :: (render v ++ rest)) (by decide)
    have h2 := replaceFrom_sep ('\\' :: tl) new '"' hq (by simp) (':' :: (render v ++ rest)) k 0
      (Nat.zero_le _)
    have h3 := replaceFrom_plain '\\' tl new [':'] (render v ++ rest) (by decide)
    have h4 := replace_render tl new hq v rest
    simp only [renderMembers, mapRawMembers, List.cons_append, List.append_assoc, List.nil_append,
      List.singleton_append] at h1 h2 h3 h4 ⊢
    rw [h1, h2, h3, h4]
  | (k, v) :: m :: ms, rest => by
    have h1 := replaceFrom_plain '\\' tl new ['"']
      (k ++ '"' :: ':' :: (render v ++ ',' :: (renderMembers (m :: ms) ++ rest))) (by decide)
    have h2 := replaceFrom_sep ('\\' :: tl) new '"' hq (by simp)
      (':' :: (render v ++ ',' :: (renderMembers (m :: ms) ++ rest))) k 0 (Nat.zero_le _)
    have h3 := replaceFrom_plain '\\' tl new [':']
      (render v ++ ',' :: (renderMembers (m :: ms) ++ rest)) (by decide)
    have h4 := replace_render tl new hq v (',' :: (renderMembers (m :: ms) ++ rest))
    have h5 := replaceFrom_plain '\\' tl new [','] (renderMembers (m :: ms) ++ rest) (by decide)
    have h6 := replace_renderMembers tl new hq (m :: ms) rest
    simp only [renderMembers, mapRawMembers, List.cons_append, List.append_assoc, List.nil_append,
      List.singleton_append] at h1 h2 h3 h4 h5 h6 ⊢
    rw [h1, h2, h3, h4, h5, h6]
end

theorem ReplaceAll_renderBody (tl new : Text) (hq : '"' ∉ '\\' :: tl) (body : Body) :
    ReplaceAll (renderBody body) ('\\' :: tl) new =
      renderBody (mapRawMembers (fun raw => ReplaceAll raw ('\\' :: tl) new) body) := by
  have h := replace_render tl new hq (.obj body) []
  rw [List.append_nil, replaceFrom_nil, List.append_nil] at h
  exact h

mutual
theorem mapRaw_comp (f g : Text → Text) : ∀ t : JSON,
    mapRaw g (mapRaw f t) = mapRaw (fun raw => g (f raw)) t
  | .null => rfl
  | .bool _ => rfl
  | .num _ => rfl
  | .str _ => rfl
  | .arr xs => by simp only [mapRaw, mapRawElems_comp f g xs]
  | .obj ms => by simp only [mapRaw, mapRawMembers_comp f g ms]
theorem mapRawElems_comp (f g : Text → Text) : ∀ xs : List JSON,
    mapRawElems g (mapRawElems f xs) = mapRawElems (fun raw => g (f raw)) xs
  | [] => rfl
  | x :: xs => by simp only [mapRawElems, mapRaw_comp f g x, mapRawElems_comp f g xs]
theorem mapRawMembers_comp (f g : Text → Text) : ∀ ms : List (Text × JSON),
    mapRawMembers g (mapRawMembers f ms) = mapRawMembers (fun raw => g (f raw)) ms
  | [] => rfl
  | (k, v) :: ms => by simp only [mapRawMembers, mapRaw_comp f g v, mapRawMembers_comp f g ms]
end

/-- The bytes `constructWithChatModel` returns are the serialization of the
body with `unangle` applied to every raw string token. -/
theorem unangle_renderBody (body : Body) :
    ReplaceAll (ReplaceAll (renderBody body) "\\u003c".toList "<".toList)
        "\\u003e".toList ">".toList = renderBody (mapRawMembers unangle body) := by
  have h1 := ReplaceAll_renderBody "u003c".toList "<".toList (by decide) body
  have h2 := ReplaceAll_renderBody "u003e".toList ">".toList (by decide)
    (mapRawMembers (fun raw => ReplaceAll raw ('\\' :: "u003c".toList) "<".toList) body)
  rw [mapRawMembers_comp] at h2
  have e1 : "\\u003c".toList = '\\' :: "u003c".toList := rfl
  have e2 : "\\u003e".toList = '\\' :: "u003e".toList := rfl
  rw [e1, e2, h1, h2]
  rfl

theorem objGet_mapRawMembers (f : Text → Text) (ms : List (Text × JSON)) (key : Text)
    (h : ∀ m ∈ ms, unescape (f m.1) = unescape m.1) :
    objGet (mapRawMembers f ms) key = (objGet ms key).map (mapRaw f) := by
  induction ms with
  | nil => rfl
  | cons m ms ih =>
    obtain ⟨k, v⟩ := m
    have hk : unescape (f k) = unescape k := h (k, v) (List.mem_cons_self _ _)
    have ih2 := ih (fun m hm => h m (List.mem_cons_of_mem _ hm))
    simp only [mapRawMembers, objGet, hk]
    split_ifs
    · rfl
    · exact ih2

theorem keys_setMember (P : Text → Prop) (ms : List (Text × JSON)) (key : Text) (v : JSON)
    (h : ∀ m ∈ ms, P m.1) (hk : P (appendStringify key)) : ∀ m ∈ setMember ms key v, P m.1 := by
  induction ms with
  | nil =>
    intro m hm
    simp only [setMember, List.mem_singleton] at hm
    rw [hm]; exact hk
  | cons m0 ms ih =>
    obtain ⟨k, x⟩ := m0
    intro m hm
    simp only [setMember] at hm
    split_ifs at hm
    · rcases List.mem_cons.mp hm with hm | hm
      · rw [hm]; exact h (k, x) (List.mem_cons_self _ _)
      · exact h m (List.mem_cons_of_mem _ hm)
    · rcases List.mem_cons.mp hm with hm | hm
      · rw [hm]; exact h (k, x) (List.mem_cons_self _ _)
      · exact ih (fun m hm => h m (List.mem_cons_of_mem _ hm)) m hm

theorem keys_deleteMember (P : Text → Prop) (ms : List (Text × JSON)) (key : Text)
    (h : ∀ m ∈ ms, P m.1) : ∀ m ∈ deleteMember ms key, P m.1 := by
  induction ms with
  | nil => intro m hm; simp [deleteMember] at hm
  | cons m0 ms ih =>
    obtain ⟨k, x⟩ := m0
    intro m hm
    simp only [deleteMember] at hm
    split_ifs at hm
    · exact h m (List.mem_cons_of_mem _ hm)
    · rcases List.mem_cons.mp hm with hm | hm
      · rw [hm]; exact h (k, x) (List.mem_cons_self _ _)
      · exact ih (fun m hm => h m (List.mem_cons_of_mem _ hm)) m hm

theorem keys_cappedCodeBody (P : Text → Prop) (body : Body) (cfg : config)
    (h : ∀ m ∈ body, P m.1) (h1 : P (appendStringify "model".toList))
    (h2 : P (appendStringify "max_tokens".toList)) :
    ∀ m ∈ cappedCodeBody body cfg, P m.1 := by
  have hm : ∀ m ∈ SetBytes (DeleteBytes (DeleteBytes body "extra".toList) "nwo".toList)
      "model".toList (stringValue cfg.CodeInstructModel), P m.1 :=
    keys_setMember P _ _ _ (keys_deleteMember P _ _ (keys_deleteMember P _ _ h)) h1
  unfold cappedCodeBody
  simp only []
  split_ifs
  · exact keys_setMember P _ _ _ hm h2
  · exact hm

/-- For a stable-code model, when the replacement leaves the decoded name of
every field of the body as it was, the returned bytes serialize a body in
which every field but `messages` is the field of the capped body with the
replacement applied to its string tokens. -/
theorem stable_code_bytes (body : Body) (cfg : config)
    (hs : Contains cfg.CodeInstructModel StableCodeModelPrefix = true)
    (hkeys : ∀ m ∈ body, unescape (unangle m.1) = unescape m.1) :
    ∃ out, ConstructRequestBody body cfg = renderBody out ∧
      ∀ key, key ≠ "messages".toList →
        GetBytes out key = (GetBytes (cappedCodeBody body cfg) key).map (mapRaw unangle) := by
  refine ⟨mapRawMembers unangle (SetBytes (cappedCodeBody body cfg) "messages".toList
    (marshalMessages "user".toList
      (fimContent (Result.String (GetBytes (cappedCodeBody body cfg) "prompt".toList))
        (Result.String (GetBytes (cappedCodeBody body cfg) "suffix".toList))))), ?_, ?_⟩
  · rw [ConstructRequestBody_eq, hs, if_pos rfl, ← unangle_renderBody]
    rfl
  · intro key hkey
    have hk : ∀ m ∈ SetBytes (cappedCodeBody body cfg) "messages".toList
        (marshalMessages "user".toList
          (fimContent (Result.String (GetBytes (cappedCodeBody body cfg) "prompt".toList))
            (Result.String (GetBytes (cappedCodeBody body cfg) "suffix".toList)))),
        unescape (unangle m.1) = unescape m.1 :=
      keys_setMember (fun k => unescape (unangle k) = unescape k) _ _ _
        (keys_cappedCodeBody (fun k => unescape (unangle k) = unescape k) body cfg hkeys
          (by decide) (by decide))
        (by decide)
    refine (objGet_mapRawMembers unangle _ key hk).trans ?_
    have h2 : objGet (SetBytes (cappedCodeBody body cfg) "messages".toList
        (marshalMessages "user".toList
          (fimContent (Result.String (GetBytes (cappedCodeBody body cfg) "prompt".toList))
            (Result.String (GetBytes (cappedCodeBody body cfg) "suffix".toList))))) key =
        objGet (cappedCodeBody body cfg) key := objGet_setMember_ne _ _ _ _ hkey
    rw [h2]
    rfl

/-- C4 (amended): the output `max_tokens` is `capOf` of the inbound one: the
ceiling when gjson `Int()` of the inbound value exceeds the ceiling, the
inbound value otherwise, where `Int()` of an integer is its int64 wrap (the
integer itself in the int64 range) and `Int()` of a missing field is 0.
Chat: whenever the handler does not panic, for the body it sends, ceiling
`chat_max_tokens`.  Code, ceiling `codex_max_tokens`: for the body whose
bytes `ConstructRequestBody` returns.  For a stable-code model the returned
bytes serialize the text replacement, token by token, of a body with the
capped `max_tokens`; read from the returned bytes themselves, the field is
the capped one (the replacement applied, which leaves a number as it is)
when the replacement leaves the decoded name of every field as it was. -/
theorem max_tokens_capped (cfg : config) (body : Body) :
    (Result.Exists (GetBytes body "function_call".toList) = true ∨
        Result.Array (GetBytes body "messages".toList) ≠ [] →
      ∃ out, completionsBody cfg body = some out ∧
        GetBytes out "max_tokens".toList =
          capOf cfg.ChatMaxTokens (GetBytes body "max_tokens".toList)) ∧
    (Contains cfg.CodeInstructModel StableCodeModelPrefix = false →
      ∃ out, ConstructRequestBody body cfg = renderBody out ∧
        GetBytes out "max_tokens".toList =
          capOf cfg.CodexMaxTokens (GetBytes body "max_tokens".toList)) ∧
    (Contains cfg.CodeInstructModel StableCodeModelPrefix = true →
      ∃ pre, ConstructRequestBody body cfg = renderBody (mapRawMembers unangle pre) ∧
        GetBytes pre "max_tokens".toList =
          capOf cfg.CodexMaxTokens (GetBytes body "max_tokens".toList)) ∧
    (Contains cfg.CodeInstructModel StableCodeModelPrefix = true →
      (∀ m ∈ body, unescape (unangle m.1) = unescape m.1) →
      ∃ out, ConstructRequestBody body cfg = renderBody out ∧
        GetBytes out "max_tokens".toList =
          (capOf cfg.CodexMaxTokens (GetBytes body "max_tokens".toList)).map (mapRaw unangle)) ∧
    (∀ ceiling k : ℤ, capOf ceiling (some (.num k)) =
      if wrapInt64 k > ceiling then some (.num ceiling) else some (.num k)) ∧
    (∀ k : ℤ, -2 ^ 63 ≤ k → k < 2 ^ 63 → wrapInt64 k = k) ∧
    (∀ ceiling : ℤ, capOf ceiling none = if 0 > ceiling then some (.num ceiling) else none) ∧
    (∀ k : ℤ, mapRaw unangle (.num k) = .num k) := by
  refine ⟨?_, ?_, ?_, ?_, capOf_num, wrapInt64_of_range, capOf_none, fun _ => rfl⟩
  · intro h
    have h2 : Result.Exists (GetBytes (mapModel cfg body) "function_call".toList) = true ∨
        Result.Array (GetBytes (mapModel cfg body) "messages".toList) ≠ [] := by
      rw [GetBytes_mapModel_ne cfg body _ (by decide), GetBytes_mapModel_ne cfg body _ (by decide)]
      exact h
    obtain ⟨mid, hmid⟩ := appendLocale_isSome cfg (mapModel cfg body) h2
    refine ⟨capChat cfg mid, completionsBody_eq cfg body mid hmid, ?_⟩
    rw [capChat_cap, GetBytes_appendLocale_ne cfg _ mid _ (by decide) hmid,
      GetBytes_mapModel_ne cfg body _ (by decide)]
  · intro hs
    refine ⟨_, ConstructRequestBody_of_not_stable body cfg hs, ?_⟩
    · have hn : ∀ b : Body, GetBytes (SetBytes b "n".toList (.num 1)) "max_tokens".toList =
          GetBytes b "max_tokens".toList := fun b => objGet_setMember_ne _ _ _ _ (by decide)
      split_ifs
      · rw [hn]; exact GetBytes_cappedCodeBody_max_tokens body cfg
      · exact GetBytes_cappedCodeBody_max_tokens body cfg
      · exact GetBytes_cappedCodeBody_max_tokens body cfg
  · intro hs
    refine ⟨SetBytes (cappedCodeBody body cfg) "messages".toList
      (marshalMessages "user".toList
        (fimContent (Result.String (GetBytes (cappedCodeBody body cfg) "prompt".toList))
          (Result.String (GetBytes (cappedCodeBody body cfg) "suffix".toList)))), ?_, ?_⟩
    · rw [ConstructRequestBody_eq, hs, if_pos rfl, ← unangle_renderBody]
      rfl
    · have h2 : GetBytes (SetBytes (cappedCodeBody body cfg) "messages".toList
          (marshalMessages "user".toList
            (fimContent (Result.String (GetBytes (cappedCodeBody body cfg) "prompt".toList))
              (Result.String (GetBytes (cappedCodeBody body cfg) "suffix".toList)))))
          "max_tokens".toList = GetBytes (cappedCodeBody body cfg) "max_tokens".toList :=
        objGet_setMember_ne _ _ _ _ (by decide)
      rw [h2, GetBytes_cappedCodeBody_max_tokens]
  · intro hs hkeys
    obtain ⟨out, h1, h2⟩ := stable_code_bytes body cfg hs hkeys
    refine ⟨out, h1, ?_⟩
    rw [h2 _ (by decide), GetBytes_cappedCodeBody_max_tokens]

/-- Witness of C4: with ceiling 10, `max_tokens` 50 becomes 10 on both
paths, the stable-code model included. -/
theorem max_tokens_capped_witness :
    (∃ out, completionsBody { emptyConfig with ChatMaxTokens := 10 }
        [("max_tokens".toList, .num 50),
         ("messages".toList, .arr [.obj [("content".toList, .str "hi".toList)]])] = some out ∧
      GetBytes out "max_tokens".toList = some (.num 10)) ∧
    (∃ out, ConstructRequestBody [("prompt".toList, .str "x".toList), ("max_tokens".toList, .num 50)]
        { emptyConfig with CodexMaxTokens := 10 } = renderBody out ∧
      GetBytes out "max_tokens".toList = some (.num 10)) ∧
    (∃ out, ConstructRequestBody [("prompt".toList, .str "x".toList), ("max_tokens".toList, .num 50)]
        { emptyConfig with CodexMaxTokens := 10, CodeInstructModel := "stable-code-3b".toList } =
          renderBody out ∧
      GetBytes out "max_tokens".toList = some (.num 10)) := by
  refine ⟨?_, ?_, ?_⟩
  · obtain ⟨out, h1, h2⟩ := (max_tokens_capped { emptyConfig with ChatMaxTokens := 10 }
      [("max_tokens".toList, .num 50),
       ("messages".toList, .arr [.obj [("content".toList, .str "hi".toList)]])]).1
      (Or.inr (by intro h; cases h))
    exact ⟨out, h1, h2.trans (by rfl)⟩
  · obtain ⟨out, h1, h2⟩ := (max_tokens_capped { emptyConfig with CodexMaxTokens := 10 }
      [("prompt".toList, .str "x".toList), ("max_tokens".toList, .num 50)]).2.1 (by decide)
    exact ⟨out, h1, h2.trans (by rfl)⟩
  · obtain ⟨out, h1, h2⟩ := (max_tokens_capped
      { emptyConfig with CodexMaxTokens := 10, CodeInstructModel := "stable-code-3b".toList }
      [("prompt".toList, .str "x".toList), ("max_tokens".toList, .num 50)]).2.2.2.1 (by decide)
      (by decide)
    exact ⟨out, h1, h2.trans (by rfl)⟩

set_option maxRecDepth 8192 in
/-- C4 as stated fails.  Under the ceiling -1 a body without `max_tokens`
leaves both rewrites with `max_tokens` set to -1; under the ceiling 10 the
integer 18446744073709551616, which `Int()` reads as 0, is left as it is;
and for the stable-code model a field named `max_tokens`, a backslash and
`u003c` (on the wire `"max_tokens\\u003c"`) leaves with the name
`"max_tokens\<"`, so the returned bytes are not JSON. -/
theorem max_tokens_counterexample :
    Result.Exists (GetBytes [("messages".toList, .arr [.obj [("content".toList, .str "hi".toList)]])]
      "max_tokens".toList) = false ∧
    (completionsBody { emptyConfig with ChatMaxTokens := -1 }
        [("messages".toList, .arr [.obj [("content".toList, .str "hi".toList)]])]).map
      (fun out => Result.String (GetBytes out "max_tokens".toList)) = some "-1".toList ∧
    Result.Exists (GetBytes [("prompt".toList, .str "x".toList)] "max_tokens".toList) = false ∧
    ConstructRequestBody [("prompt".toList, .str "x".toList)]
        { emptyConfig with CodexMaxTokens := -1, CodeInstructModel := "gpt".toList } =
      "\x7b\"prompt\":\"x\",\"model\":\"gpt\",\"max_tokens\":-1\x7d".toList ∧
    ConstructRequestBody
        [("prompt".toList, .str "x".toList), ("max_tokens".toList, .num 18446744073709551616)]
        { emptyConfig with CodexMaxTokens := 10, CodeInstructModel := "gpt".toList } =
      "\x7b\"prompt\":\"x\",\"max_tokens\":18446744073709551616,\"model\":\"gpt\"\x7d".toList ∧
    (10 : ℤ) < 18446744073709551616 ∧
    ConstructRequestBody
        [("prompt".toList, .str "a".toList), ("max_tokens\\\\u003c".toList, .num 1),
         ("max_tokens".toList, .num 50)]
        { emptyConfig with CodexMaxTokens := 10, CodeInstructModel := "stable-code-3b".toList } =
      ("\x7b\"prompt\":\"a\",\"max_tokens\\<\":1,\"max_tokens\":10,\"model\":\"stable-code-3b\"," ++
        "\"messages\":[\x7b\"content\":\"<fim_prefix>a<fim_suffix><fim_middle>\"," ++
        "\"role\":\"user\"\x7d]\x7d").toList ∧
    validJSONObject (ConstructRequestBody
        [("prompt".toList, .str "a".toList), ("max_tokens\\\\u003c".toList, .num 1),
         ("max_tokens".toList, .num 50)]
        { emptyConfig with CodexMaxTokens := 10, CodeInstructModel := "stable-code-3b".toList }) =
      false := by
  refine ⟨by decide, by decide, by decide, by decide, by decide, by decide, by decide, by decide⟩

/-! ## The clamp on `n` -/

/-- C6 (amended): for a `code_instruct_model` that starts with
`deepseek-coder` and does not contain `stable-code`, `ConstructRequestBody`
returns the bytes of a body whose `n` is `capOf 1` of the inbound `n`: 1 when
gjson `Int()` of the inbound `n` exceeds 1, the inbound `n` otherwise, where
`Int()` of an integer is its int64 wrap (the integer itself in the int64
range) and a missing `n` stays missing.  For a model that neither contains
`stable-code` nor starts with `deepseek-coder`, `n` is what it was. -/
theorem deepseek_n_clamped (cfg : config) (body : Body) :
    (HasPrefix cfg.CodeInstructModel DeepSeekCoderModel = true →
      Contains cfg.CodeInstructModel StableCodeModelPrefix = false →
      ∃ out, ConstructRequestBody body cfg = renderBody out ∧
        GetBytes out "n".toList = capOf 1 (GetBytes body "n".toList)) ∧
    (HasPrefix cfg.CodeInstructModel DeepSeekCoderModel = false →
      Contains cfg.CodeInstructModel StableCodeModelPrefix = false →
      ∃ out, ConstructRequestBody body cfg = renderBody out ∧
        GetBytes out "n".toList = GetBytes body "n".toList) ∧
    (∀ k : ℤ, capOf 1 (some (.num k)) = if wrapInt64 k > 1 then some (.num 1) else some (.num k)) ∧
    (∀ k : ℤ, -2 ^ 63 ≤ k → k < 2 ^ 63 → wrapInt64 k = k) ∧
    capOf 1 none = none := by
  have hg : GetBytes (cappedCodeBody body cfg) "n".toList = GetBytes body "n".toList :=
    GetBytes_cappedCodeBody_ne body cfg _ (by decide) (by decide) (by decide) (by decide)
  refine ⟨?_, ?_, capOf_num 1, wrapInt64_of_range, rfl⟩
  · intro hp hs
    refine ⟨_, ConstructRequestBody_of_not_stable body cfg hs, ?_⟩
    rw [hp, if_pos rfl, cap_step, hg]
  · intro hp hs
    refine ⟨_, ConstructRequestBody_of_not_stable body cfg hs, ?_⟩
    rw [hp, if_neg (by simp)]
    exact hg

/-- Witness of C6: `n` = 4 becomes 1 under `deepseek-coder`, and stays 4
under `gpt-3.5-turbo-instruct`. -/
theorem deepseek_n_clamped_witness :
    (∃ out, ConstructRequestBody [("prompt".toList, .str "x".toList), ("n".toList, .num 4)]
        { emptyConfig with CodeInstructModel := "deepseek-coder".toList } = renderBody out ∧
      GetBytes out "n".toList = some (.num 1)) ∧
    (∃ out, ConstructRequestBody [("prompt".toList, .str "x".toList), ("n".toList, .num 4)]
        { emptyConfig with CodeInstructModel := "gpt-3.5-turbo-instruct".toList } = renderBody out ∧
      GetBytes out "n".toList = some (.num 4)) := by
  constructor
  · obtain ⟨out, h1, h2⟩ := (deepseek_n_clamped
      { emptyConfig with CodeInstructModel := "deepseek-coder".toList }
      [("prompt".toList, .str "x".toList), ("n".toList, .num 4)]).1 (by decide) (by decide)
    exact ⟨out, h1, h2.trans (by rfl)⟩
  · obtain ⟨out, h1, h2⟩ := (deepseek_n_clamped
      { emptyConfig with CodeInstructModel := "gpt-3.5-turbo-instruct".toList }
      [("prompt".toList, .str "x".toList), ("n".toList, .num 4)]).2.1 (by decide) (by decide)
    exact ⟨out, h1, h2⟩

/-- C6 as stated fails: under `deepseek-coder` the integer
9223372036854775808, which `Int()` reads as -9223372036854775808, is greater
than 1 and is left as it is. -/
theorem deepseek_n_counterexample :
    ConstructRequestBody
        [("prompt".toList, .str "x".toList), ("n".toList, .num 9223372036854775808)]
        { emptyConfig with CodeInstructModel := "deepseek-coder".toList } =
      "\x7b\"prompt\":\"x\",\"n\":9223372036854775808,\"model\":\"deepseek-coder\"\x7d".toList ∧
    (1 : ℤ) < 9223372036854775808 := by
  refine ⟨by decide, by decide⟩

/-! ## Handlers: transport failures and the relay -/

theorem completions_forwarded (cfg : config) (up : Upstream) (body out : Body)
    (hb : completionsBody cfg body = some out)
    (hreq : up.newRequest (cfg.ChatApiBase ++ "/chat/completions".toList) = true) :
    completions cfg up (some body) =
      match up.Do (cfg.ChatApiBase ++ "/chat/completions".toList) (renderBody out) with
      | .error e => if e.isCanceled then some (AbortWithStatus 408) else some (AbortWithStatus 500)
      | .response resp => some (relay resp) := by
  unfold completions
  simp only [hb, hreq, Bool.not_true, Bool.false_eq_true, if_false]

theorem codeCompletions_forwarded (cfg : config) (up : Upstream) (body : Body)
    (hreq : up.newRequest (cfg.CodexApiBase ++ "/completions".toList) = true) :
    codeCompletions cfg up false (some body) =
      match up.Do (cfg.CodexApiBase ++ "/completions".toList) (ConstructRequestBody body cfg) with
      | .error e => if e.isCanceled then abortCodex 408 else abortCodex 500
      | .response resp => if resp.StatusCode ≠ 200 then abortCodex resp.StatusCode else relay resp := by
  unfold codeCompletions
  simp only [hreq, Bool.not_true, Bool.false_eq_true, if_false]

/-- C7 (amended): when `client.Do` fails, the chat handler answers 408
without body and the code handler the synthetic abort response with status
408 exactly when the error is `context.Canceled`; every other transport
failure, a deadline exceeded included, gives 500 (chat) or the synthetic
abort response with status 500 (code). -/
theorem transport_error_status (cfg : config) (up : Upstream) (body out : Body)
    (e : TransportError) :
    (completionsBody cfg body = some out →
      up.newRequest (cfg.ChatApiBase ++ "/chat/completions".toList) = true →
      up.Do (cfg.ChatApiBase ++ "/chat/completions".toList) (renderBody out) = .error e →
      completions cfg up (some body) =
        some { status := if e = .canceled then 408 else 500, contentType := none, body := [] }) ∧
    (up.newRequest (cfg.CodexApiBase ++ "/completions".toList) = true →
      up.Do (cfg.CodexApiBase ++ "/completions".toList) (ConstructRequestBody body cfg) = .error e →
      codeCompletions cfg up false (some body) =
        { status := if e = .canceled then 408 else 500,
          contentType := some "text/event-stream".toList, body := "data: [DONE]\n".toList }) := by
  constructor
  · intro hb hreq hdo
    rw [completions_forwarded cfg up body out hb hreq, hdo]
    cases e <;> rfl
  · intro hreq hdo
    rw [codeCompletions_forwarded cfg up body hreq, hdo]
    cases e <;> rfl

/-- Witness of C7: a canceled context gives 408 on both endpoints. -/
theorem transport_error_status_witness :
    completions emptyConfig { newRequest := fun _ => true, Do := fun _ _ => .error .canceled }
        (some [("messages".toList, .arr [.obj [("content".toList, .str "hi".toList)]])]) =
      some { status := 408, contentType := none, body := [] } ∧
    codeCompletions emptyConfig { newRequest := fun _ => true, Do := fun _ _ => .error .canceled }
        false (some [("prompt".toList, .str "x".toList)]) =
      { status := 408, contentType := some "text/event-stream".toList,
        body := "data: [DONE]\n".toList } :=
  ⟨(transport_error_status emptyConfig
      { newRequest := fun _ => true, Do := fun _ _ => .error .canceled }
      [("messages".toList, .arr [.obj [("content".toList, .str "hi".toList)]])]
      (capChat emptyConfig (SetMessageContent (mapModel emptyConfig
        [("messages".toList, .arr [.obj [("content".toList, .str "hi".toList)]])]) 0
        (stringValue "hiRespond in the following locale: zh_CN.".toList)))
      .canceled).1 (by rfl) rfl rfl,
   (transport_error_status emptyConfig
      { newRequest := fun _ => true, Do := fun _ _ => .error .canceled }
      [("prompt".toList, .str "x".toList)] [] .canceled).2 rfl rfl⟩

/-- C7 as stated fails: when the upstream call fails with a deadline
exceeded, the chat handler answers 500 and the code handler the synthetic
abort response with status 500, not 408. -/
theorem transport_error_counterexample :
    completions emptyConfig
        { newRequest := fun _ => true, Do := fun _ _ => .error .deadlineExceeded }
        (some [("messages".toList, .arr [.obj [("content".toList, .str "hi".toList)]])]) =
      some { status := 500, contentType := none, body := [] } ∧
    codeCompletions emptyConfig
        { newRequest := fun _ => true, Do := fun _ _ => .error .deadlineExceeded }
        false (some [("prompt".toList, .str "x".toList)]) =
      { status := 500, contentType := some "text/event-stream".toList,
        body := "data: [DONE]\n".toList } := by
  constructor <;> rfl

/-- C8 (amended): for an upstream response received without transport error,
the code handler answers a status other than 200 with the synthetic abort
response carrying that status and nothing of the upstream body: header
`Content-Type: text/event-stream` and the body `data: [DONE]`, or no body
when the status is 1xx, 204 or 304; it relays a 200 response (status,
Content-Type when non-empty, body); the chat handler relays every response,
whatever its status. -/
theorem upstream_response_relayed (cfg : config) (up : Upstream) (body out : Body)
    (resp : UpstreamResponse) :
    (up.newRequest (cfg.CodexApiBase ++ "/completions".toList) = true →
      up.Do (cfg.CodexApiBase ++ "/completions".toList) (ConstructRequestBody body cfg) =
        .response resp →
      (resp.StatusCode ≠ 200 →
        codeCompletions cfg up false (some body) =
          { status := resp.StatusCode, contentType := some "text/event-stream".toList,
            body := if (100 ≤ resp.StatusCode ∧ resp.StatusCode ≤ 199) ∨ resp.StatusCode = 204 ∨
                resp.StatusCode = 304 then []
              else "data: [DONE]\n".toList }) ∧
      (resp.StatusCode = 200 →
        codeCompletions cfg up false (some body) =
          { status := 200,
            contentType := if resp.ContentType ≠ [] then some resp.ContentType else none,
            body := resp.Body })) ∧
    (completionsBody cfg body = some out →
      up.newRequest (cfg.ChatApiBase ++ "/chat/completions".toList) = true →
      up.Do (cfg.ChatApiBase ++ "/chat/completions".toList) (renderBody out) = .response resp →
      completions cfg up (some body) =
        some { status := resp.StatusCode,
               contentType := if resp.ContentType ≠ [] then some resp.ContentType else none,
               body := resp.Body }) := by
  constructor
  · intro hreq hdo
    rw [codeCompletions_forwarded cfg up body hreq, hdo]
    constructor
    · intro hs
      simp only [hs, ne_eq, not_false_eq_true, if_true, abortCodex, bodyAllowedForStatus]
      by_cases h : (100 ≤ resp.StatusCode ∧ resp.StatusCode ≤ 199) ∨ resp.StatusCode = 204 ∨
          resp.StatusCode = 304
      · rw [if_pos h]
        rcases h with h | h | h <;> simp [h]
      · rw [if_neg h]
        simp only [not_or] at h
        simp [h.1, h.2.1, h.2.2]
    · intro hs
      simp only [hs, ne_eq, not_true_eq_false, if_false, relay]
  · intro hb hreq hdo
    rw [completions_forwarded cfg up body out hb hreq, hdo]
    rfl

/-- Witness of C8: an upstream 429 with a JSON error body. -/
theorem upstream_response_relayed_witness :
    codeCompletions emptyConfig
        { newRequest := fun _ => true,
          Do := fun _ _ => .response { StatusCode := 429, ContentType := "application/json".toList,
                                       Body := "slow down".toList } }
        false (some [("prompt".toList, .str "x".toList)]) =
      { status := 429, contentType := some "text/event-stream".toList,
        body := "data: [DONE]\n".toList } ∧
    completions emptyConfig
        { newRequest := fun _ => true,
          Do := fun _ _ => .response { StatusCode := 429, ContentType := "application/json".toList,
                                       Body := "slow down".toList } }
        (some [("function_call".toList, .null)]) =
      some { status := 429, contentType := some "application/json".toList,
             body := "slow down".toList } :=
  ⟨((upstream_response_relayed emptyConfig
      { newRequest := fun _ => true,
        Do := fun _ _ => .response { StatusCode := 429, ContentType := "application/json".toList,
                                     Body := "slow down".toList } }
      [("prompt".toList, .str "x".toList)] []
      { StatusCode := 429, ContentType := "application/json".toList,
        Body := "slow down".toList }).1 rfl rfl).1 (by decide),
   (upstream_response_relayed emptyConfig
      { newRequest := fun _ => true,
        Do := fun _ _ => .response { StatusCode := 429, ContentType := "application/json".toList,
                                     Body := "slow down".toList } }
      [("function_call".toList, .null)]
      (capChat emptyConfig (mapModel emptyConfig [("function_call".toList, .null)]))
      { StatusCode := 429, ContentType := "application/json".toList,
        Body := "slow down".toList }).2 (by rfl) rfl rfl⟩

/-- C8 as stated fails: for an upstream 204 the code handler answers 204
with the event-stream header and no body, not the body `data: [DONE]`. -/
theorem upstream_response_counterexample :
    codeCompletions emptyConfig
        { newRequest := fun _ => true,
          Do := fun _ _ => .response { StatusCode := 204, ContentType := [], Body := [] } }
        false (some [("prompt".toList, .str "x".toList)]) =
      { status := 204, contentType := some "text/event-stream".toList, body := [] } ∧
    ([] : Text) ≠ "data: [DONE]\n".toList := by
  constructor
  · rfl
  · decide

/-! ## The auth gate -/

/-- The response of a rejected request. -/
theorem AuthMiddleware_eq (authToken token : Text) :
    AuthMiddleware authToken token =
      if token = authToken then none
      else some { status := 401, contentType := some "application/json; charset=utf-8".toList,
                  body := "\x7b\"error\":\"Unauthorized\"\x7d".toList } := by
  unfold AuthMiddleware
  by_cases h : token = authToken <;> simp [h]

theorem serve_gated (cfg : config) (hg : cfg.AuthToken ≠ []) (token : Text)
    (suffix : List Text) (handler : Handler)
    (hs : (suffix, handler) ∈
      [(["v1".toList, "chat".toList, "completions".toList], Handler.completions),
       (["v1".toList, "engines".toList, "copilot-codex".toList, "completions".toList],
         Handler.codeCompletions),
       (["v1".toList, "v1".toList, "chat".toList, "completions".toList], Handler.completions),
       (["v1".toList, "v1".toList, "engines".toList, "copilot-codex".toList,
         "completions".toList], Handler.codeCompletions)]) :
    serve cfg "POST".toList (token :: suffix) =
      match AuthMiddleware cfg.AuthToken token with
      | some resp => .aborted resp
      | none => .handled handler := by
  simp only [List.mem_cons, Prod.mk.injEq, List.mem_singleton, List.not_mem_nil, or_false] at hs
  rcases hs with ⟨h1, h2⟩ | ⟨h1, h2⟩ | ⟨h1, h2⟩ | ⟨h1, h2⟩ <;> subst h1 <;> subst h2 <;>
    simp [serve, InitRoutes, findRoute, matchPattern, hg, Param, List.lookup]

/-- C9: in the gated state (non-empty `auth_token`), a POST request to any of
the four gated routes with path token `token`, the empty token included, is
answered 401 by the gate, the handler not being invoked, if and only if
`token` differs from the configured token; and it reaches the handler of the
route if and only if the two are equal. -/
theorem auth_gate (cfg : config) (hg : cfg.AuthToken ≠ []) (token : Text)
    (suffix : List Text) (handler : Handler)
    (hs : (suffix, handler) ∈
      [(["v1".toList, "chat".toList, "completions".toList], Handler.completions),
       (["v1".toList, "engines".toList, "copilot-codex".toList, "completions".toList],
         Handler.codeCompletions),
       (["v1".toList, "v1".toList, "chat".toList, "completions".toList], Handler.completions),
       (["v1".toList, "v1".toList, "engines".toList, "copilot-codex".toList,
         "completions".toList], Handler.codeCompletions)]) :
    (serve cfg "POST".toList (token :: suffix) =
        .aborted { status := 401, contentType := some "application/json; charset=utf-8".toList,
                   body := "\x7b\"error\":\"Unauthorized\"\x7d".toList } ↔
      token ≠ cfg.AuthToken) ∧
    (serve cfg "POST".toList (token :: suffix) = .handled handler ↔ token = cfg.AuthToken) := by
  rw [serve_gated cfg hg token suffix handler hs, AuthMiddleware_eq]
  by_cases h : token = cfg.AuthToken
  · simp [h]
  · simp [h]

/-- Witness of C9: configured token `abc`, path token `xyz`: 401, and the
chat handler is not reached. -/
theorem auth_gate_witness :
    serve { emptyConfig with AuthToken := "abc".toList } "POST".toList
        ["xyz".toList, "v1".toList, "chat".toList, "completions".toList] =
      .aborted { status := 401, contentType := some "application/json; charset=utf-8".toList,
                 body := "\x7b\"error\":\"Unauthorized\"\x7d".toList } :=
  (auth_gate { emptyConfig with AuthToken := "abc".toList } (by decide) "xyz".toList
    ["v1".toList, "chat".toList, "completions".toList] Handler.completions
    (by simp)).1.mpr (by decide)

/-! ## The stable-code branch -/

/-- C5 (code bug): for the stable-code model and the prompt whose text is
`a`, a backslash, `u003cb` (on the wire `"a\\u003cb"`), the returned bytes
carry `a\<b` both in `prompt` and in the content of the message: an escape
JSON does not have.  The content asked for is the prompt between the
markers; gjson reads the content written up to the bad escape only. -/
theorem stable_code_prompt_corrupted :
    ConstructRequestBody [("prompt".toList, .str "a\\\\u003cb".toList)]
        { emptyConfig with CodeInstructModel := "stable-code-3b".toList } =
      ("\x7b\"prompt\":\"a\\<b\",\"model\":\"stable-code-3b\",\"messages\":[\x7b\"content\":" ++
        "\"<fim_prefix>a\\<b<fim_suffix><fim_middle>\",\"role\":\"user\"\x7d]\x7d").toList ∧
    fimContent (Result.String (GetBytes [("prompt".toList, .str "a\\\\u003cb".toList)]
        "prompt".toList)) (Result.String (GetBytes [("prompt".toList, .str "a\\\\u003cb".toList)]
        "suffix".toList)) = "<fim_prefix>a\\u003cb<fim_suffix><fim_middle>".toList ∧
    unescape "<fim_prefix>a\\<b<fim_suffix><fim_middle>".toList = "<fim_prefix>a".toList := by
  decide

/-- The example of the specification: prompt `foo` and suffix `bar` give
one user message with the markers in literal angle brackets. -/
theorem stable_code_foo_bar :
    ConstructRequestBody
        [("prompt".toList, .str "foo".toList), ("suffix".toList, .str "bar".toList)]
        { emptyConfig with CodeInstructModel := "stable-code-3b".toList } =
      ("\x7b\"prompt\":\"foo\",\"suffix\":\"bar\",\"model\":\"stable-code-3b\"," ++
        "\"messages\":[\x7b\"content\":\"<fim_prefix>foo<fim_suffix>bar<fim_middle>\"," ++
        "\"role\":\"user\"\x7d]\x7d").toList := by
  decide

/-! ## Fields the rewrites do not name -/

theorem unnamed_setMember (names : List Text) (ms : Body) (key : Text) (v : JSON)
    (hk : key ∈ names) : unnamed names (setMember ms key v) = unnamed names ms := by
  induction ms with
  | nil => simp [setMember, unnamed, unescape_appendStringify, hk]
  | cons m ms ih =>
    obtain ⟨k, x⟩ := m
    simp only [unnamed, List.contains_eq_any_beq, List.any_eq_true, beq_iff_eq, exists_eq_right,
      Bool.decide_eq_true] at ih ⊢
    by_cases h : unescape k = key
    · subst h
      simp [setMember, List.filter_cons, hk]
    · simp [setMember, h, List.filter_cons, ih]

theorem unnamed_deleteMember (names : List Text) (ms : Body) (key : Text)
    (hk : key ∈ names) : unnamed names (deleteMember ms key) = unnamed names ms := by
  induction ms with
  | nil => simp [deleteMember]
  | cons m ms ih =>
    obtain ⟨k, x⟩ := m
    simp only [unnamed, List.contains_eq_any_beq, List.any_eq_true, beq_iff_eq, exists_eq_right,
      Bool.decide_eq_true] at ih ⊢
    by_cases h : unescape k = key
    · subst h
      simp [deleteMember, List.filter_cons, hk]
    · simp [deleteMember, h, List.filter_cons, ih]

theorem unnamed_SetMessageContent (names : List Text) (body : Body) (n : ℕ) (v : JSON)
    (hk : "messages".toList ∈ names) :
    unnamed names (SetMessageContent body n v) = unnamed names body := by
  unfold SetMessageContent
  cases hm : objGet body "messages".toList with
  | none =>
    have hu : unescape "messages".toList = "messages".toList := by decide
    have hk2 : unescape "messages".toList ∈ names := by rw [hu]; exact hk
    simp only [unnamed, List.filter_append, List.filter_cons]
    simp only [String.toList] at hk2 ⊢
    simp [hk2]
  | some m =>
    cases hs : setIndexContent m n v with
    | none => simp only [hs]
    | some m2 =>
      simp only [hs]
      exact unnamed_setMember names body _ m2 hk

theorem unnamed_capChat (cfg : config) (body : Body) :
    unnamed chatNames (capChat cfg body) = unnamed chatNames body := by
  unfold capChat
  simp only [SetBytes, DeleteBytes]
  split_ifs
  · rw [unnamed_setMember _ _ _ _ (by decide), unnamed_deleteMember _ _ _ (by decide),
      unnamed_deleteMember _ _ _ (by decide), unnamed_deleteMember _ _ _ (by decide)]
  · rw [unnamed_deleteMember _ _ _ (by decide),
      unnamed_deleteMember _ _ _ (by decide), unnamed_deleteMember _ _ _ (by decide)]

/-- Frame of both rewrites: whenever the chat rewrite completes, the body it
yields has the members not named in `chatNames` that the inbound body has,
with the same values in the same order; `ConstructRequestBody` returns, for a
model without `stable-code`, the bytes of a body with the members not named
in `codeNames` that the inbound body has, and for a stable-code model the
text replacement applied to the bytes of such a body. -/
theorem unnamed_fields_preserved (cfg : config) (body : Body) :
    (∀ out, completionsBody cfg body = some out →
      unnamed chatNames out = unnamed chatNames body) ∧
    (Contains cfg.CodeInstructModel StableCodeModelPrefix = false →
      ∃ out, ConstructRequestBody body cfg = renderBody out ∧
        unnamed codeNames out = unnamed codeNames body) ∧
    (Contains cfg.CodeInstructModel StableCodeModelPrefix = true →
      ∃ out, ConstructRequestBody body cfg =
          ReplaceAll (ReplaceAll (renderBody out) "\\u003c".toList "<".toList)
            "\\u003e".toList ">".toList ∧
        unnamed codeNames out = unnamed codeNames body) := by
  have hcode : ∀ mid : Body, mid = (if Result.Int (GetBytes (SetBytes (DeleteBytes (DeleteBytes body
      "extra".toList) "nwo".toList) "model".toList (stringValue cfg.CodeInstructModel))
      "max_tokens".toList) > cfg.CodexMaxTokens then
        SetBytes (SetBytes (DeleteBytes (DeleteBytes body "extra".toList) "nwo".toList)
          "model".toList (stringValue cfg.CodeInstructModel)) "max_tokens".toList
          (.num cfg.CodexMaxTokens)
      else SetBytes (DeleteBytes (DeleteBytes body "extra".toList) "nwo".toList)
          "model".toList (stringValue cfg.CodeInstructModel)) →
      unnamed codeNames mid = unnamed codeNames body := by
    intro mid hmid
    rw [hmid]
    simp only [DeleteBytes, SetBytes]
    split_ifs
    · rw [unnamed_setMember _ _ _ _ (by decide), unnamed_setMember _ _ _ _ (by decide),
        unnamed_deleteMember _ _ _ (by decide), unnamed_deleteMember _ _ _ (by decide)]
    · rw [unnamed_setMember _ _ _ _ (by decide),
        unnamed_deleteMember _ _ _ (by decide), unnamed_deleteMember _ _ _ (by decide)]
  refine ⟨?_, ?_, ?_⟩
  · intro out hout
    unfold completionsBody at hout
    have hmap : unnamed chatNames (mapModel cfg body) = unnamed chatNames body :=
      unnamed_setMember _ _ _ _ (by decide)
    rcases appendLocale_cases cfg (mapModel cfg body) with h1 | h1 | ⟨n, v, h1⟩
    · rw [h1] at hout; cases hout
    · rw [h1] at hout; cases hout
      rw [unnamed_capChat, hmap]
    · rw [h1] at hout; cases hout
      rw [unnamed_capChat, unnamed_SetMessageContent _ _ _ _ (by decide), hmap]
  · intro hs
    obtain ⟨mid, hmid⟩ : ∃ mid : Body, mid = (if Result.Int (GetBytes (SetBytes (DeleteBytes
        (DeleteBytes body "extra".toList) "nwo".toList) "model".toList
        (stringValue cfg.CodeInstructModel)) "max_tokens".toList) > cfg.CodexMaxTokens then
          SetBytes (SetBytes (DeleteBytes (DeleteBytes body "extra".toList) "nwo".toList)
            "model".toList (stringValue cfg.CodeInstructModel)) "max_tokens".toList
            (.num cfg.CodexMaxTokens)
        else SetBytes (DeleteBytes (DeleteBytes body "extra".toList) "nwo".toList)
            "model".toList (stringValue cfg.CodeInstructModel)) := ⟨_, rfl⟩
    have heq : ConstructRequestBody body cfg = renderBody
        (if HasPrefix cfg.CodeInstructModel DeepSeekCoderModel then
          if Result.Int (GetBytes mid "n".toList) > 1 then SetBytes mid "n".toList (.num 1)
          else mid
        else mid) := by
      rw [hmid]
      unfold ConstructRequestBody
      simp only [hs, Bool.false_eq_true, if_false]
    refine ⟨_, heq, ?_⟩
    simp only [SetBytes]
    split_ifs
    · rw [unnamed_setMember _ _ _ _ (by decide)]; exact hcode _ hmid
    · exact hcode _ hmid
    · exact hcode _ hmid
  · intro hs
    obtain ⟨mid, hmid⟩ : ∃ mid : Body, mid = (if Result.Int (GetBytes (SetBytes (DeleteBytes
        (DeleteBytes body "extra".toList) "nwo".toList) "model".toList
        (stringValue cfg.CodeInstructModel)) "max_tokens".toList) > cfg.CodexMaxTokens then
          SetBytes (SetBytes (DeleteBytes (DeleteBytes body "extra".toList) "nwo".toList)
            "model".toList (stringValue cfg.CodeInstructModel)) "max_tokens".toList
            (.num cfg.CodexMaxTokens)
        else SetBytes (DeleteBytes (DeleteBytes body "extra".toList) "nwo".toList)
            "model".toList (stringValue cfg.CodeInstructModel)) := ⟨_, rfl⟩
    have heq : ConstructRequestBody body cfg = constructWithStableCodeModel mid := by
      rw [hmid]
      unfold ConstructRequestBody
      simp only [hs, if_true]
    refine ⟨SetBytes mid "messages".toList (marshalMessages "user".toList
      (fimContent (Result.String (GetBytes mid "prompt".toList))
        (Result.String (GetBytes mid "suffix".toList)))), ?_, ?_⟩
    · rw [heq]; rfl
    · simp only [SetBytes]
      rw [unnamed_setMember _ _ _ _ (by decide)]
      exact hcode _ hmid

/-- Witness of the frame: `stream` and `temperature` pass both rewrites. -/
theorem unnamed_fields_preserved_witness :
    unnamed chatNames (capChat emptyConfig (mapModel emptyConfig
        [("stream".toList, .bool true), ("function_call".toList, .null),
         ("intent".toList, .bool true)])) =
      [("stream".toList, .bool true), ("function_call".toList, .null)] ∧
    (∃ out, ConstructRequestBody [("nwo".toList, .str "a/b".toList), ("temperature".toList, .num 0)]
        emptyConfig = renderBody out ∧
      unnamed codeNames out = [("temperature".toList, .num 0)]) :=
  ⟨(unnamed_fields_preserved emptyConfig
      [("stream".toList, .bool true), ("function_call".toList, .null),
       ("intent".toList, .bool true)]).1 _ (by rfl),
   (unnamed_fields_preserved emptyConfig
      [("nwo".toList, .str "a/b".toList), ("temperature".toList, .num 0)]).2.1 (by decide)⟩

/-- C10 (code bug): for the stable-code model, the field `stop`, which the
rewrite does not name, arrives as a backslash and `u003c` (on the wire
`"\\u003c"`) and leaves as `"\<"`, an escape JSON does not have, which gjson
reads as the empty text; and the chat body with `temperature` and an empty
`messages` yields no body at all. -/
theorem unnamed_field_corrupted :
    ConstructRequestBody [("prompt".toList, .str "a".toList), ("stop".toList, .str "\\\\u003c".toList)]
        { emptyConfig with CodeInstructModel := "stable-code-3b".toList } =
      ("\x7b\"prompt\":\"a\",\"stop\":\"\\<\",\"model\":\"stable-code-3b\",\"messages\":" ++
        "[\x7b\"content\":\"<fim_prefix>a<fim_suffix><fim_middle>\",\"role\":\"user\"\x7d]\x7d").toList ∧
    unescape "\\\\u003c".toList = "\\u003c".toList ∧
    unescape "\\<".toList = [] ∧
    completionsBody emptyConfig [("temperature".toList, .num 1), ("messages".toList, .arr [])] =
      none := by
  refine ⟨by decide, by decide, by decide, by rfl⟩

/-- For a stable-code model, `ConstructRequestBody` returns the two text
replacements applied to the bytes of a body whose `messages` is one object
with `role` `user` and a `content` token that decodes to the inbound prompt
and suffix between the fill-in-the-middle markers. -/
theorem stable_code_messages (cfg : config) (body : Body)
    (hs : Contains cfg.CodeInstructModel StableCodeModelPrefix = true) :
    ∃ out raw, ConstructRequestBody body cfg =
        ReplaceAll (ReplaceAll (renderBody out) "\\u003c".toList "<".toList)
          "\\u003e".toList ">".toList ∧
      GetBytes out "messages".toList =
        some (.arr [.obj [("content".toList, .str raw), ("role".toList, .str "user".toList)]]) ∧
      unescape raw = fimContent (Result.String (GetBytes body "prompt".toList))
        (Result.String (GetBytes body "suffix".toList)) := by
  obtain ⟨mid, hmid⟩ : ∃ mid : Body, mid = (if Result.Int (GetBytes (SetBytes (DeleteBytes
      (DeleteBytes body "extra".toList) "nwo".toList) "model".toList
      (stringValue cfg.CodeInstructModel)) "max_tokens".toList) > cfg.CodexMaxTokens then
        SetBytes (SetBytes (DeleteBytes (DeleteBytes body "extra".toList) "nwo".toList)
          "model".toList (stringValue cfg.CodeInstructModel)) "max_tokens".toList
          (.num cfg.CodexMaxTokens)
      else SetBytes (DeleteBytes (DeleteBytes body "extra".toList) "nwo".toList)
          "model".toList (stringValue cfg.CodeInstructModel)) := ⟨_, rfl⟩
  have heq : ConstructRequestBody body cfg = constructWithStableCodeModel mid := by
    rw [hmid]
    unfold ConstructRequestBody
    simp only [hs, if_true]
  have hget : ∀ key : Text, key ≠ "extra".toList → key ≠ "nwo".toList → key ≠ "model".toList →
      key ≠ "max_tokens".toList → GetBytes mid key = GetBytes body key := by
    intro key h1 h2 h3 h4
    rw [hmid]
    simp only [GetBytes, DeleteBytes, SetBytes]
    split_ifs
    · rw [objGet_setMember_ne _ _ _ _ h4, objGet_setMember_ne _ _ _ _ h3,
        objGet_deleteMember_ne _ _ _ h2, objGet_deleteMember_ne _ _ _ h1]
    · rw [objGet_setMember_ne _ _ _ _ h3,
        objGet_deleteMember_ne _ _ _ h2, objGet_deleteMember_ne _ _ _ h1]
  refine ⟨SetBytes mid "messages".toList (marshalMessages "user".toList
      (fimContent (Result.String (GetBytes mid "prompt".toList))
        (Result.String (GetBytes mid "suffix".toList)))),
    marshalString (fimContent (Result.String (GetBytes mid "prompt".toList))
        (Result.String (GetBytes mid "suffix".toList))), ?_, ?_, ?_⟩
  · rw [heq]; rfl
  · unfold GetBytes SetBytes
    rw [objGet_setMember_self]
    rfl
  · rw [unescape_marshalString, hget _ (by decide) (by decide) (by decide) (by decide),
      hget _ (by decide) (by decide) (by decide) (by decide)]

/-- Witness of the stable-code messages: prompt `foo`, suffix `bar`. -/
theorem stable_code_messages_witness :
    ∃ out raw, ConstructRequestBody
        [("prompt".toList, .str "foo".toList), ("suffix".toList, .str "bar".toList)]
        { emptyConfig with CodeInstructModel := "stable-code-3b".toList } =
        ReplaceAll (ReplaceAll (renderBody out) "\\u003c".toList "<".toList)
          "\\u003e".toList ">".toList ∧
      GetBytes out "messages".toList =
        some (.arr [.obj [("content".toList, .str raw), ("role".toList, .str "user".toList)]]) ∧
      unescape raw = "<fim_prefix>foo<fim_suffix>bar<fim_middle>".toList :=
  stable_code_messages { emptyConfig with CodeInstructModel := "stable-code-3b".toList }
    [("prompt".toList, .str "foo".toList), ("suffix".toList, .str "bar".toList)] (by decide)

/-! ## Well-formedness of the stable-code output -/

set_option maxRecDepth 8192 in
/-- C11 (code bug): for the stable-code model and the well-formed body whose
prompt is the source line `x = "\u003e"` (on the wire `"x = \"\\u003e\""`)
and whose suffix is `;`, the bytes `ConstructRequestBody` returns are not
well-formed JSON: the replacement of `\u003e` by `>` has taken the second
backslash of `\\u003e`, leaving the escape `\>` in `prompt` and in the
message content.  For prompt `foo` and suffix `bar` the returned bytes are
well-formed. -/
theorem stable_code_output_malformed :
    validJSONObject (renderBody
      [("prompt".toList, .str "x = \\\"\\\\u003e\\\"".toList),
       ("suffix".toList, .str ";".toList)]) = true ∧
    Result.String (GetBytes
      [("prompt".toList, .str "x = \\\"\\\\u003e\\\"".toList),
       ("suffix".toList, .str ";".toList)] "prompt".toList) = "x = \"\\u003e\"".toList ∧
    ConstructRequestBody
        [("prompt".toList, .str "x = \\\"\\\\u003e\\\"".toList),
         ("suffix".toList, .str ";".toList)]
        { emptyConfig with CodeInstructModel := "stable-code-3b".toList } =
      ("\x7b\"prompt\":\"x = \\\"\\>\\\"\",\"suffix\":\";\",\"model\":\"stable-code-3b\"," ++
        "\"messages\":[\x7b\"content\":\"<fim_prefix>x = \\\"\\>\\\"<fim_suffix>;<fim_middle>\"," ++
        "\"role\":\"user\"\x7d]\x7d").toList ∧
    validJSONObject (ConstructRequestBody
        [("prompt".toList, .str "x = \\\"\\\\u003e\\\"".toList),
         ("suffix".toList, .str ";".toList)]
        { emptyConfig with CodeInstructModel := "stable-code-3b".toList }) = false ∧
    validJSONObject (ConstructRequestBody
        [("prompt".toList, .str "foo".toList), ("suffix".toList, .str "bar".toList)]
        { emptyConfig with CodeInstructModel := "stable-code-3b".toList }) = true := by
  refine ⟨by decide, by decide, by decide, by decide, by decide⟩

end Override
